import Mathlib

/-!
# Wabbit toolchain: shallow embedding and verification of spec claims

This file embeds the claim-relevant parts of the Wabbit compiler/interpreter
(`src/wabbit/`) in Lean 4 and settles the frozen claims C1–C10 about it.

The embedding follows the Python source closely:

* `WabbitTok` embeds `tokenize.py` (the `tokenize` generator).
* `WVM` embeds `wvm.py` (the `WVM` stack machine's integer/control subset).
* `WabbitCheck` embeds `typecheck.py` together with the `Program` object of
  `program.py`.
* `WabbitInterp` embeds `interp.py` (`Context` and `interpret`) over the
  int/bool fragment of the dynamic value domain.  None of the claims under
  verification concern `float` or `char` *values*, so the value domain carries
  integers and booleans only; the source's branches for the other runtime types
  are either represented faithfully on that domain or noted in comments at the
  single points where an actual host float/char value would be required.

Python-level failure modes are modelled explicitly: exceptions that the source
raises deliberately (`RuntimeError` with a diagnostic message) are
distinguished from host crashes (`ZeroDivisionError`, `IndexError`,
`AttributeError`, `TypeError`, ...), because several claims turn on exactly
this distinction ("managed error" versus "unhandled crash").
-/

namespace WabbitTok

/-! ## Tokenizer (`src/wabbit/tokenize.py`)

The source scans a Python string by index `n`, starting at `lineno = 1`.
We model the text as a `List Char`.  The source's predicates `str.isspace`,
`str.isdigit`, `str.isalpha`, `str.isalnum` are modelled on the ASCII range
(the spec fixes the surface language to ASCII source).
-/

def pyIsSpace (c : Char) : Bool :=
  c = ' ' || c = '\t' || c = '\n' || c = '\r' || c = '\x0b' || c = '\x0c'

def pyIsDigit (c : Char) : Bool := '0' ≤ c && c ≤ '9'

def pyIsAlpha (c : Char) : Bool := ('a' ≤ c && c ≤ 'z') || ('A' ≤ c && c ≤ 'Z')

def pyIsAlnum (c : Char) : Bool := pyIsAlpha c || pyIsDigit c

/-- A token, as in class `Token` of `tokenize.py`: type, lexeme, line, index. -/
structure Token where
  type : String
  value : String
  lineno : Nat
  index : Nat
  deriving Repr, DecidableEq

/-- The `lang_literal_tokens` dict of `tokenize.py` (maps lexeme to kind). -/
def langLiteralTokens (s : String) : Option String :=
  if s = "+" then some "PLUS"
  else if s = "-" then some "MINUS"
  else if s = "*" then some "TIMES"
  else if s = "/" then some "DIVIDE"
  else if s = ";" then some "SEMI"
  else if s = "," then some "COMMA"
  else if s = "(" then some "LPAREN"
  else if s = ")" then some "RPAREN"
  else if s = "\x7b" then some "LBRACE"
  else if s = "\x7d" then some "RBRACE"
  else if s = "<" then some "LT"
  else if s = ">" then some "GT"
  else if s = "=" then some "ASSIGN"
  else if s = "==" then some "EQ"
  else if s = ">=" then some "GE"
  else if s = "<=" then some "LE"
  else if s = "!=" then some "NE"
  else if s = "&&" then some "LAND"
  else if s = "||" then some "LOR"
  else if s = "!" then some "LNOT"
  else none

/-- The `lang_reserved_words` set of `tokenize.py`. -/
def langReservedWords : List String :=
  ["const", "var", "print", "break", "continue", "if",
   "else", "while", "func", "return", "true", "false"]

/-- Upper-casing for reserved words (`check_str.upper()`); the reserved words
are ASCII lower-case. -/
def pyUpper (s : String) : String := s.map Char.toUpper

/-- Number of leading characters of `l` satisfying `p`; models the source's
`while n < len(text) and p(text[n]): n += 1` scans. -/
def countWhile (p : Char → Bool) : List Char → Nat
  | [] => 0
  | c :: cs => if p c then countWhile p cs + 1 else 0

/-- Scan of a `/* ... */` block comment body: number of characters consumed
before the terminating `*/` (or end of input) and the number of newlines seen
among them.  Models the inner `while` loop of the block-comment branch. -/
def blockScan : List Char → Nat × Nat
  | '*' :: '/' :: _ => (0, 0)
  | c :: cs =>
      let r := blockScan cs
      (r.1 + 1, r.2 + (if c = '\n' then 1 else 0))
  | [] => (0, 0)

/-- The slice `text[a:a+k]` as a `String`. -/
def slice (t : List Char) (a k : Nat) : String :=
  String.mk ((t.drop a).take k)

/-- The character `text[n]`, when in bounds. -/
def charAt (t : List Char) (n : Nat) : Option Char := t.get? n

/-- Host-level failures of the tokenizer.  `indexError` models a Python
`IndexError` from an out-of-bounds string index. -/
inductive TokErr
  | indexError
  deriving Repr, DecidableEq

/-- The body of `tokenize` of `tokenize.py`, one iteration of the
`while n < len(text)` loop per fuel step.  The fuel is an artifact of the
embedding: every loop iteration advances `n` by at least one, so
`t.length + 1` fuel can never be exhausted from `n = 0`; the `.none` result
of fuel exhaustion is unreachable for the initial call in `tokenize`.

Illegal characters: the source prints a diagnostic on the standard output and
continues; the diagnostic channel is not modelled (no claim concerns it).
-/
def tokenizeLoop (t : List Char) : Nat → Nat → Nat → Option (Except TokErr (List Token))
  | 0, _, _ => none
  | fuel + 1, n, lineno =>
    match charAt t n with
    | none =>
        -- while-loop exit: emit the single EOF token
        some (.ok [⟨"EOF", "EOF", lineno, n⟩])
    | some c =>
      -- handle newline
      if c = '\n' then
        tokenizeLoop t fuel (n + 1) (lineno + 1)
      -- handle whitespaces, tabs, newlines
      else if pyIsSpace c then
        -- the source reads `text[n]` after `n += 1` with no bounds check:
        -- at end of input this is a Python IndexError
        match charAt t (n + 1) with
        | none => some (.error .indexError)
        | some c' =>
            if c' = '\n' then tokenizeLoop t fuel (n + 1) (lineno + 1)
            else tokenizeLoop t fuel (n + 1) lineno
      -- handle comments (block)
      else if slice t n 2 = "/*" then
        let r := blockScan (t.drop n)
        tokenizeLoop t fuel (n + r.1 + 2) (lineno + r.2)
      -- handle single line comments
      else if slice t n 2 = "//" then
        -- the first two characters are the slashes, which are not newlines
        tokenizeLoop t fuel (n + 2 + countWhile (· ≠ '\n') (t.drop (n + 2))) lineno
      -- handle 2-characters language tokens (text[n:n+2]); at the last
      -- character of the input this slice has length 1, as in Python
      else if (langLiteralTokens (slice t n 2)).isSome then
        match langLiteralTokens (slice t n 2) with
        | some kind =>
            (tokenizeLoop t fuel (n + 2) lineno).map
              (·.map (⟨kind, slice t n 2, lineno, n⟩ :: ·))
        | none => none
      -- handle 1-character language tokens
      else if (langLiteralTokens (slice t n 1)).isSome then
        match langLiteralTokens (slice t n 1) with
        | some kind =>
            (tokenizeLoop t fuel (n + 1) lineno).map
              (·.map (⟨kind, slice t n 1, lineno, n⟩ :: ·))
        | none => none
      -- handle integers and floats
      else if pyIsDigit c then
        let m := n + 1 + countWhile pyIsDigit (t.drop (n + 1))
        if charAt t m = some '.' then
          let m2 := m + 1 + countWhile pyIsDigit (t.drop (m + 1))
          (tokenizeLoop t fuel m2 lineno).map
            (·.map (⟨"FLOAT", slice t n (m2 - n), lineno, n⟩ :: ·))
        else
          (tokenizeLoop t fuel m lineno).map
            (·.map (⟨"INTEGER", slice t n (m - n), lineno, n⟩ :: ·))
      -- handle characters
      else if c = '\'' then
        let m := n + 1 + countWhile (· ≠ '\'') (t.drop (n + 1))
        (tokenizeLoop t fuel (m + 1) lineno).map
          (·.map (⟨"CHAR", slice t n (m + 1 - n), lineno, n⟩ :: ·))
      -- reserved words and names
      else if pyIsAlpha c || c = '_' then
        let m := n + 1 + countWhile (fun c => pyIsAlnum c || c = '_') (t.drop (n + 1))
        let s := slice t n (m - n)
        let kind := if s ∈ langReservedWords then pyUpper s else "NAME"
        (tokenizeLoop t fuel m lineno).map
          (·.map (⟨kind, s, lineno, n⟩ :: ·))
      -- illegal character: diagnostic printed (not modelled), scan continues
      else
        tokenizeLoop t fuel (n + 1) lineno

/-- `tokenize` of `tokenize.py` on a source string, with the token stream
materialized as a list.  `t.length + 1` fuel suffices (each iteration advances
the index), so the fuel layer never surfaces. -/
def tokenize (source : String) : Option (Except TokErr (List Token)) :=
  tokenizeLoop source.data (source.data.length + 1) 0 1

end WabbitTok

namespace WVM

/-! ## Stack virtual machine (`src/wabbit/wvm.py`)

The integer and control-flow subset of the machine is embedded; the
floating-point stack and the `F*`/`ITOF`/`FTOI` instructions are outside the
fragment (no claim involves host floats).  The integer stack is a Python
`array('i')` of 32-bit signed ints: appending an out-of-range value raises
`OverflowError`, popping an empty array raises `IndexError`; both are
modelled.  Dictionaries (`globals`, per-frame locals, the label map) are
modelled as association lists.
-/

/-- Host-level exceptions the machine can raise. -/
inductive VMErr
  | indexError | keyError | overflowError | zeroDivisionError | valueError
  deriving Repr, DecidableEq

inductive Instr
  | IPUSH (v : Int) | IPOP | IADD | ISUB | IMUL | IDIV
  | AND | OR | XOR | ICMP (op : String)
  | ILOAD_GLOBAL (slot : Int) | ISTORE_GLOBAL (slot : Int)
  | ILOAD_LOCAL (slot : Int) | ISTORE_LOCAL (slot : Int)
  | LABEL (name : String) | GOTO (name : String) | BZ (name : String)
  | CALL (name : String) | RET | HALT
  | IPRINT | BPRINT | CPRINT
  deriving Repr, DecidableEq

/-- A frame on the call stack: the Python dict `{}` that `CALL` fills with a
`'return'` key and integer slot keys. -/
structure Frame where
  ret : Option Nat
  locals : List (Int × Int)
  deriving Repr, DecidableEq

/-- Machine state (`WVM.__init__` plus the `running` flag set by `run`).
The float stack is omitted (outside the fragment); `out` collects the print
instructions' output. -/
structure VMState where
  pc : Nat
  running : Bool
  istack : List Int          -- head = top of stack
  globals : List (Int × Int)
  stack : List Frame         -- head = Python `stack[-1]`
  out : List String
  deriving Repr, DecidableEq

def dictGet (d : List (Int × Int)) (k : Int) : Option Int :=
  (d.find? (·.1 = k)).map (·.2)

def dictSet (d : List (Int × Int)) (k : Int) (v : Int) : List (Int × Int) :=
  if (d.find? (·.1 = k)).isSome then d.map (fun p => if p.1 = k then (k, v) else p)
  else d ++ [(k, v)]

/-- Python bitwise `&`/`|`/`^` on ints known to fit in 32-bit two's
complement (every stack value does, by the `array('i')` bound): computed on
the 32-bit two's-complement representations. -/
def toNat2c (a : Int) : Nat := (a % (2 ^ 32)).toNat

def ofNat2c (r : Nat) : Int :=
  if r ≥ 2 ^ 31 then (r : Int) - 2 ^ 32 else (r : Int)

def pyAnd (a b : Int) : Int := ofNat2c (Nat.land (toNat2c a) (toNat2c b))
def pyOr (a b : Int) : Int := ofNat2c (Nat.lor (toNat2c a) (toNat2c b))
def pyXor (a b : Int) : Int := ofNat2c (Nat.xor (toNat2c a) (toNat2c b))

/-- `IPUSH`: append to `array('i')`; out-of-range values raise
`OverflowError`. -/
def ipush (v : Int) (st : VMState) : Except VMErr VMState :=
  if -(2 ^ 31) ≤ v ∧ v < 2 ^ 31 then .ok { st with istack := v :: st.istack }
  else .error .overflowError

/-- `IPOP`: pop from the integer stack; empty stack raises `IndexError`. -/
def ipop (st : VMState) : Except VMErr (Int × VMState) :=
  match st.istack with
  | [] => .error .indexError
  | v :: rest => .ok (v, { st with istack := rest })

/-- The label map built by one scan in `run`: a dict comprehension, so a
repeated label name resolves to its **last** index. -/
def labelIndex (instrs : List Instr) (name : String) : Option Nat :=
  (List.range instrs.length).foldl
    (fun acc i =>
      match instrs.get? i with
      | some (.LABEL m) => if m = name then some i else acc
      | _ => acc)
    none

/-- One instruction dispatch (the `getattr(self, op)(*args)` call), applied to
the state in which `pc` has already been incremented. -/
def exec (ins : Instr) (instrs : List Instr) (st : VMState) : Except VMErr VMState :=
  match ins with
  | .IPUSH v => ipush v st
  | .IPOP => do let (_, st) ← ipop st; return st
  | .IADD => do
      let (right, st) ← ipop st; let (left, st) ← ipop st; ipush (left + right) st
  | .ISUB => do
      let (right, st) ← ipop st; let (left, st) ← ipop st; ipush (left - right) st
  | .IMUL => do
      let (right, st) ← ipop st; let (left, st) ← ipop st; ipush (left * right) st
  | .IDIV => do
      -- Python `//` is floor division; a zero divisor raises ZeroDivisionError
      let (right, st) ← ipop st; let (left, st) ← ipop st
      if right = 0 then .error .zeroDivisionError else ipush (Int.fdiv left right) st
  | .AND => do
      let (right, st) ← ipop st; let (left, st) ← ipop st; ipush (pyAnd left right) st
  | .OR => do
      let (right, st) ← ipop st; let (left, st) ← ipop st; ipush (pyOr left right) st
  | .XOR => do
      let (right, st) ← ipop st; let (left, st) ← ipop st; ipush (pyXor left right) st
  | .ICMP op => do
      -- an unrecognized comparison op falls through without pushing, as in the
      -- source (no else branch)
      let (right, st) ← ipop st; let (left, st) ← ipop st
      if op = "<" then ipush (if left < right then 1 else 0) st
      else if op = "<=" then ipush (if left ≤ right then 1 else 0) st
      else if op = ">" then ipush (if left > right then 1 else 0) st
      else if op = ">=" then ipush (if left ≥ right then 1 else 0) st
      else if op = "==" then ipush (if left = right then 1 else 0) st
      else if op = "!=" then ipush (if left ≠ right then 1 else 0) st
      else .ok st
  | .ILOAD_GLOBAL slot =>
      match dictGet st.globals slot with
      | none => .error .keyError
      | some v => ipush v st
  | .ISTORE_GLOBAL slot => do
      let (v, st) ← ipop st; return { st with globals := dictSet st.globals slot v }
  | .ILOAD_LOCAL slot =>
      match st.stack with
      | [] => .error .indexError
      | f :: _ =>
          match dictGet f.locals slot with
          | none => .error .keyError
          | some v => ipush v st
  | .ISTORE_LOCAL slot => do
      let (v, st) ← ipop st
      match st.stack with
      | [] => .error .indexError
      | f :: rest =>
          return { st with stack := { f with locals := dictSet f.locals slot v } :: rest }
  | .HALT => .ok { st with running := false }
  | .LABEL _ => .ok st
  | .GOTO name =>
      match labelIndex instrs name with
      | none => .error .keyError
      | some i => .ok { st with pc := i }
  | .BZ name => do
      let (v, st) ← ipop st
      if v = 0 then
        match labelIndex instrs name with
        | none => .error .keyError
        | some i => .ok { st with pc := i }
      else .ok st
  | .CALL name =>
      -- a new frame is pushed with `'return'` set to the (incremented) pc,
      -- then the pc is overwritten with the callee's label index
      match labelIndex instrs name with
      | none => .error .keyError
      | some i => .ok { st with stack := ⟨some st.pc, []⟩ :: st.stack, pc := i }
  | .RET =>
      match st.stack with
      | [] => .error .indexError
      | f :: rest =>
          match f.ret with
          | none => .error .keyError    -- Python: missing 'return' key
          | some r => .ok { st with pc := r, stack := rest }
  | .IPRINT => do
      let (v, st) ← ipop st; return { st with out := st.out ++ [toString v] }
  | .BPRINT => do
      let (v, st) ← ipop st
      return { st with out := st.out ++ [if v ≠ 0 then "true" else "false"] }
  | .CPRINT => do
      let (v, st) ← ipop st
      if _h : 0 ≤ v ∧ v < 0x110000 then
        if _hv : (v.toNat).isValidChar then
          return { st with out := st.out ++ [String.mk [Char.ofNat v.toNat]] }
        else .error .valueError   -- surrogate code points: chr succeeds in
                                  -- Python but is not a Lean Char; out of fragment
      else .error .valueError     -- Python chr() range error

/-- Outcome of `WVM.run`. -/
inductive RunResult
  | halted (st : VMState)
  | crashed (e : VMErr)
  | outOfFuel
  deriving Repr, DecidableEq

/-- The `while self.running:` loop of `WVM.run`.  Each iteration fetches
`instructions[self.pc]` — with no bounds check, so a pc past the end of the
program raises `IndexError` — increments the pc, and dispatches.  The fuel
argument is an artifact of the embedding (the source loop can run forever);
no claim depends on the `outOfFuel` case. -/
def runLoop (instrs : List Instr) : Nat → VMState → RunResult
  | fuel, st =>
    if st.running = false then .halted st
    else
      match fuel with
      | 0 => .outOfFuel
      | fuel + 1 =>
        match instrs.get? st.pc with
        | none => .crashed .indexError
        | some ins =>
          match exec ins instrs { st with pc := st.pc + 1 } with
          | .error e => .crashed e
          | .ok st' => runLoop instrs fuel st'

/-- `WVM.run`: pc is reset to 0, `running` set, and the loop entered.  The
label map is recomputed on demand by `labelIndex` (the source precomputes it
from the same instruction list). -/
def initState : VMState := ⟨0, true, [], [], [⟨none, []⟩], []⟩

def run (instrs : List Instr) (fuel : Nat) : RunResult :=
  runLoop instrs fuel initState

end WVM

namespace WabbitCheck

/-! ## Type checker (`src/wabbit/typecheck.py` with `src/wabbit/program.py`)

`check` handles exactly four model classes (`Integer`, `Float`, `BinOp`,
`PrintStatement`) and raises `RuntimeError("Couldn't check ...")` on every
other node; the `other` constructor stands for any such unhandled class.
`CheckContext.error(message)` executes `self.program.error(message)`, but
class `Program` (program.py) defines only `read_source` and `error_message` —
there is no attribute `error` — so reporting any error raises
`AttributeError`.  `Program.error_message` (which would set `have_errors`)
is never called anywhere in typecheck.py.
-/

/-- Model classes as seen by `check`. -/
inductive CNode
  | integer (lexeme : String)
  | float (lexeme : String)
  | binop (op : String) (l r : CNode)
  | printStmt (value : CNode)
  | other
  deriving Repr, DecidableEq

/-- The `Program` container (program.py): only the fields the checker can
touch.  `have_errors` starts `False` and is set only by `error_message`. -/
structure Program where
  model : CNode
  have_errors : Bool

/-- The static "type" values `check` can produce: type-name strings, or the
`Ellipsis` placeholder left in the `BinOp` branch (`result_type = ...`). -/
inductive CTy
  | str (s : String)
  | ellipsis
  deriving Repr, DecidableEq

/-- Exceptions escaping `check`. -/
inductive CErr
  | attributeError
  | runtimeError (msg : String)
  deriving Repr, DecidableEq

/-- `check(node, context)` of typecheck.py. -/
def check : CNode → Except CErr CTy
  | .integer _ => .ok (.str "int")
  | .float _ => .ok (.str "float")
  | .binop _ l r => do
      let lt ← check l
      let rt ← check r
      if lt ≠ rt then
        -- context.error("Type error") → self.program.error(message):
        -- Program has no attribute `error` → AttributeError
        .error .attributeError
      else
        .ok .ellipsis    -- result_type = ...  (the Ellipsis object)
  | .printStmt _ =>
      -- check(node.eval, context): PrintStatement stores the expression in
      -- `value`; there is no attribute `eval` → AttributeError
      .error .attributeError
  | .other => .error (.runtimeError "Couldn't check")

/-- `check_program(program)` of typecheck.py: run `check` on the model and
report `not program.have_errors`.  Exceptions propagate. -/
def checkProgram (p : Program) : Except CErr Bool :=
  (check p.model).map (fun _ => !p.have_errors)

end WabbitCheck

namespace WabbitInterp

/-! ## Definitional interpreter (`src/wabbit/interp.py`)

The embedding covers the int/bool fragment of the dynamic value domain
(`Float` and `Char` literal nodes and float/char *values* are outside the
fragment; every claim under verification concerns only int and bool values).
The source's branches that inspect type-tag strings such as `'float'` or
`'char'` are kept, and are modelled faithfully on this value domain; the few
spots that would require an actual host float value are marked with the
`unmodelled` placeholder exception and are unreachable for programs of the
fragment.

`Context` (a dict plus parent pointer) becomes a list of frames, innermost
first; Python's in-place mutation becomes explicit state threading.  Since
evaluation is sequential and at most one scope chain is live at a time, a
callee's mutations of outer frames are exactly the updates of the list's
tail.

Python exceptions are modelled by `PyExc`: the interpreter's deliberate
`RuntimeError(msg)` diagnostics, the control-flow exceptions
(`FunctionReturnFlowBreaker`, `Break`, `Continue`), and host-level crashes
(`TypeError` from unpacking `None` or bad operands, `AttributeError` from a
missing attribute, `AssertionError`, `ZeroDivisionError`, `IndexError`).
-/

/-- A type annotation (`Type` node read through `.name`), restricted to the
fragment's two types. -/
inductive TAnn
  | int
  | bool
  deriving Repr, DecidableEq

def TAnn.pyName : TAnn → String
  | .int => "int"
  | .bool => "bool"

/-- A runtime value of the fragment. -/
inductive RtVal
  | vint (n : Int)
  | vbool (b : Bool)
  deriving Repr, DecidableEq

/-- `_default_type_values` of interp.py, at the fragment's types. -/
def defaultTypeValue : TAnn → RtVal
  | .int => .vint 0
  | .bool => .vbool false

/-- A `Type` AST node as stored in a `func` binding (`fn_return_type`).
Python compares these objects by identity (`Type` defines no `__eq__`); the
`oid` field stands for the object identity of the node. -/
structure TypeNode where
  name : String
  oid : Nat
  deriving Repr, DecidableEq

/-- AST nodes of model.py (the fragment).  Notes on constructor arguments:
`Integer` stores a decimal lexeme on which the interpreter calls `int(...)`;
we store the denoted integer.  `Boolean.value` is asserted to be `'true'` or
`'false'` at construction; we store the corresponding `Bool`.
`FunctionDefinition.name` and `FunctionApplication.name` are `Name` nodes;
we store their `.value` string.  `ConstDeclaration.type` is never read by the
interpreter and is omitted. -/
inductive Node
  | integer (value : Int)
  | boolean (b : Bool)
  | name (x : String)
  | binOp (op : String) (l r : Node)
  | relOp (op : String) (l r : Node)
  | logicalOp (op : String) (l r : Node)
  | unaryOp (op : String) (value : Node)
  | grouped (value : Node)
  | assignment (location value : Node)
  | compound (statements : List Node)
  | exprStatement (value : Node)
  | printStatement (value : Node)
  | ifStatement (test : Node) (consequence : Node) (alternative : Option Node)
  | whileStatement (test : Node) (body : Node)
  | breakStatement
  | continueStatement
  | constDeclaration (nm : String) (init : Option Node)
  | varDeclaration (nm : String) (ty : Option TAnn) (init : Option Node)
  | block (statements : List Node)
  | functionDefinition (fname : String) (ps : List (String × TAnn × Option Node))
      (retTy : TypeNode) (body : Node)
  | functionReturn (expression : Node)
  | functionApplication (fname : String) (args : List Node)
  deriving Repr

/-- The `isinstance(-, Expression)` test of the model class hierarchy. -/
def isExpr : Node → Bool
  | .integer _ | .boolean _ | .name _ | .binOp .. | .relOp .. | .logicalOp ..
  | .unaryOp .. | .grouped _ | .assignment .. | .compound _
  | .functionApplication .. => true
  | _ => false

/-- The `.statements` attribute (present on `Block` and `Compound` nodes). -/
def nodeStatements : Node → Option (List Node)
  | .block l => some l
  | .compound l => some l
  | _ => none

/-- The stored function definition of a `func` binding (the fields of the
`FunctionDefinition` node the interpreter reads back at call time). -/
structure FuncDef where
  fname : String
  ps : List (String × TAnn × Option Node)
  retTy : TypeNode
  body : Node
  deriving Repr

/-- The type slot of a binding triple: a type-name string for `const`/`var`
bindings, the `fn_return_type` `Type` node for `func` bindings. -/
inductive StoredTy
  | str (s : String)
  | tnode (t : TypeNode)
  deriving Repr, DecidableEq

/-- The value slot of a binding triple: a runtime value, or the
`FunctionDefinition` node for `func` bindings. -/
inductive StoredVal
  | rv (v : RtVal)
  | fd (d : FuncDef)
  deriving Repr

/-- Python `==` between stored types: strings compare by content; `Type`
nodes compare by object identity (`oid`); a `Type` node never equals a
string. -/
def tyEq : StoredTy → StoredTy → Bool
  | .str a, .str b => a = b
  | .tnode a, .tnode b => a.oid = b.oid
  | _, _ => false

/-- `left_type in {'int','float'}`-style membership tests. -/
def tyIn (t : StoredTy) (l : List String) : Bool :=
  match t with
  | .str s => s ∈ l
  | .tnode _ => false

/-- Exceptions. -/
inductive PyExc
  | runtimeError (msg : String)        -- `raise RuntimeError(msg)` diagnostics
  | flowBreak (t : StoredTy) (v : StoredVal)  -- FunctionReturnFlowBreaker
  | brkExc                              -- Break
  | contExc                             -- Continue
  | zeroDivisionError
  | typeError
  | attributeError
  | assertionError
  | indexError
  | fuelExhausted                       -- embedding artifact (recursion budget)
  | unmodelled                          -- placeholder: would require a host
                                        -- float value; unreachable in fragment
  deriving Repr

/-- A binding triple `(kind, value_type, value)` with kind in
`{'const','var','func'}`. -/
abbrev Binding := String × StoredTy × StoredVal

/-- One `Context.env` dict (insertion-ordered, unique keys). -/
abbrev Frame := List (String × Binding)

/-- A scope chain, innermost context first; the last frame is the root. -/
abbrev Env := List Frame

def frameGet (f : Frame) (x : String) : Option Binding :=
  (f.find? (·.1 = x)).map (·.2)

def frameSet (f : Frame) (x : String) (b : Binding) : Frame :=
  if (f.find? (·.1 = x)).isSome then
    f.map (fun p => if p.1 = x then (x, b) else p)
  else f ++ [(x, b)]

/-- `Context.lookup`: innermost-first search; a name absent from every frame
raises `RuntimeError` at the root. -/
def envLookup : Env → String → Except PyExc Binding
  | [], x => .error (.runtimeError ("Variable " ++ x ++ " not defined"))
  | f :: rest, x =>
    match frameGet f x with
    | some b => .ok b
    | none => envLookup rest x

/-- `Context.define`: always in the innermost frame; redefinition raises
(with a message that depends on the existing binding's kind). -/
def envDefine : Env → String → Binding → Except PyExc Env
  | [], _, _ => .error .indexError   -- no current scope; unreachable
  | f :: rest, x, b =>
    match frameGet f x with
    | some (kind, _, _) =>
        if kind = "func" then
          .error (.runtimeError ("Function " ++ x ++ "() already defined"))
        else
          .error (.runtimeError ("Variable " ++ x ++ " already declared"))
    | none => .ok ((f ++ [(x, b)]) :: rest)

/-- `Context.assign`: searches outward for the innermost frame holding the
name.  Note that the write `self.env[name] = value` in the source is **not**
in an `else` branch: after a successful recursive assignment in a parent the
binding is also copied into every intervening frame.  A name absent from the
whole chain raises at the root, before any write. -/
def envAssign : Env → String → Binding → Except PyExc Env
  | [], _, _ => .error (.runtimeError "Variable not defined")
  | f :: rest, x, b =>
    if (frameGet f x).isSome then .ok (frameSet f x b :: rest)
    else (envAssign rest x b).map (fun rest' => frameSet f x b :: rest')

/-- Interpreter state: the scope chain plus collected standard output.  Each
entry of `out` is one write: `print` of an int/bool appends the line content
(newline implied one-per-entry); the `char` branch would append without a
newline (outside the fragment). -/
structure St where
  env : Env
  out : List String
  deriving Repr

/-- A `(type, value)` pair as returned by `interpret` for expressions. -/
abbrev PyVal := StoredTy × StoredVal

/-- Result of `interpret`: a normal return (`none` models Python `None`, the
result for statements) or an escaping exception. -/
inductive Res
  | ok (r : Option PyVal)
  | exc (e : PyExc)
  deriving Repr

/-- `a, b = interpret(...)`: unpacking `None` raises `TypeError`. -/
def unpack : Res → Except PyExc PyVal
  | .ok (some p) => .ok p
  | .ok none => .error .typeError
  | .exc e => .error e

/-- Python `int(v)` on fragment values: bools are ints; an `int()` of a
`FunctionDefinition` object raises `TypeError`. -/
def pyToInt : StoredVal → Except PyExc Int
  | .rv (.vint n) => .ok n
  | .rv (.vbool b) => .ok (if b then 1 else 0)
  | .fd _ => .error .typeError

/-- Python truthiness of fragment values (function objects are truthy). -/
def pyTruthy : StoredVal → Bool
  | .rv (.vint n) => n ≠ 0
  | .rv (.vbool b) => b
  | .fd _ => true

/-- Python `==` on fragment values (`True == 1`; objects without `__eq__`
compare by identity — for two stored `FunctionDefinition` objects the
identity is proxied by the identity of their `fn_return_type` `Type` nodes,
since each definition carries its own `Type` object.  No interpreter dispatch
path reaches a function-object comparison.) -/
def pyEqB : StoredVal → StoredVal → Bool
  | .rv (.vint a), .rv (.vint b) => a = b
  | .rv (.vbool a), .rv (.vbool b) => a = b
  | .rv (.vint a), .rv (.vbool b) => a = (if b then 1 else 0)
  | .rv (.vbool a), .rv (.vint b) => (if a then 1 else 0) = b
  | .fd a, .fd b => a.retTy.oid = b.retTy.oid
  | _, _ => false

/-- Python `not v`. -/
def pyNot : StoredVal → StoredVal
  | .rv (.vbool b) => .rv (.vbool !b)
  | .rv (.vint n) => .rv (.vbool (n = 0))
  | .fd _ => .rv (.vbool false)

/-- `str(v)`/`print(v)` rendering of fragment values.  The raw `print` of a
`FunctionDefinition` would emit its `__repr__`; a fixed placeholder is used
(no claim concerns that output). -/
def pyStr : StoredVal → String
  | .rv (.vint n) => toString n
  | .rv (.vbool b) => if b then "True" else "False"
  | .fd _ => "FunctionDefinition"

/-- A `.value` attribute access on a node (used for `node.location.value` and
for the `argument.value == 'true'` comparison at call sites): string-valued
on literal/name nodes, node-valued on wrapper nodes, `AttributeError`
elsewhere. -/
inductive AttrVal
  | s (v : String)
  | nd (n : Node)
  deriving Repr

def dotValue : Node → Except PyExc AttrVal
  | .integer n => .ok (.s (toString n))
  | .boolean b => .ok (.s (if b then "true" else "false"))
  | .name x => .ok (.s x)
  | .unaryOp _ v => .ok (.nd v)
  | .grouped v => .ok (.nd v)
  | .assignment _ v => .ok (.nd v)
  | .exprStatement v => .ok (.nd v)
  | .printStatement v => .ok (.nd v)
  | _ => .error .attributeError

/-- `FunctionReturnFlowBreaker.get_payload`: converts the carried
`(return_type, return_value)`.  The `'bool'` branch tests
`self.return_value == 'true'` against a runtime *value*, which is never the
string `'true'`, so it always produces `False`.  The `'char'` branch calls
`eval(...)` on a non-string, a `TypeError`.  A return type outside the four
strings makes `get_payload` return `None`, and unpacking it raises
`TypeError`. -/
def getPayload : StoredTy → StoredVal → Except PyExc PyVal
  | .str "int", v => (pyToInt v).map (fun n => (.str "int", .rv (.vint n)))
  | .str "float", _ => .error .unmodelled
  | .str "char", _ => .error .typeError
  | .str "bool", _ => .ok (.str "bool", .rv (.vbool false))
  | _, _ => .error .typeError

/-- Rendering of a stored type inside f-string diagnostics. -/
def tyRepr : StoredTy → String
  | .str s => s
  | .tnode t => "Type(" ++ t.name ++ ")"

/-- Integer arithmetic on fragment values (`+`, `-`, `*`): Python treats
bools as ints; arithmetic involving a function object raises `TypeError`. -/
def arith2 (f : Int → Int → Int) (a b : StoredVal) : Except PyExc StoredVal := do
  let x ← pyToInt a
  let y ← pyToInt b
  return .rv (.vint (f x y))

/-- Integer comparison on fragment values: ordering a function object raises
`TypeError`. -/
def cmp2 (f : Int → Int → Bool) (a b : StoredVal) : Except PyExc Bool := do
  let x ← pyToInt a
  let y ← pyToInt b
  return f x y

/-- Work items of the evaluator.  `one` is `interpret(node, context)`; the
other constructors are the loops written inline in the source: the `Block`
statement loop (`seqB`), the parameter-initialization and argument-binding
loops and the body-statement loop of the `FunctionApplication` case
(`fnParams`/`fnArgs`/`fnBody`), the `while` iteration (`whileJob`), and the
`Compound` statement loop (`compoundLoop`). -/
inductive Job
  | one (n : Node)
  | seqB (l : List Node)
  | fnParams (ps : List (String × TAnn × Option Node))
  | fnArgs (f : String) (pairs : List (String × Node))
  | fnBody (l : List Node)
  | whileJob (t : Node) (b : Node)
  | compoundLoop (l : List Node)
  deriving Repr

/-- `context.spawn_child_context()`: a fresh innermost frame. -/
def pushFrame (s : St) : St := { s with env := [] :: s.env }

/-- Dropping the innermost frame: the caller's context object is the parent,
with all mutations made through the chain preserved. -/
def dropFrame (s : St) : St := { s with env := s.env.tail }

/-- `interpret(node, context)` of interp.py, with the inline loops as `Job`s.
The fuel argument is an embedding artifact making the evaluator structurally
recursive: one unit is consumed per evaluation step, and `fuelExhausted`
signals only that the budget ran out (the source recurses unboundedly on
function calls and `while` iterations).  Every theorem below either holds for
all fuel or supplies enough of it. -/
def interp : Nat → Job → St → Res × St
  | 0, _, s => (.exc .fuelExhausted, s)
  | fuel + 1, .one nd, s =>
    match nd with
    | .integer n => (.ok (some (.str "int", .rv (.vint n))), s)
    | .boolean b => (.ok (some (.str "bool", .rv (.vbool b))), s)
    | .name x =>
      match envLookup s.env x with
      | .error e => (.exc e, s)
      | .ok (_, t, v) => (.ok (some (t, v)), s)
    | .binOp op l r =>
      let p1 := interp fuel (.one l) s
      match unpack p1.1 with
      | .error e => (.exc e, p1.2)
      | .ok (lt, lv) =>
        let p2 := interp fuel (.one r) p1.2
        match unpack p2.1 with
        | .error e => (.exc e, p2.2)
        | .ok (rt, rv) =>
          if ¬ tyEq lt rt then
            (.exc (.runtimeError "Type error in binary operator"), p2.2)
          else if tyIn lt ["int", "float"] then
            let res : Except PyExc StoredVal :=
              if op = "+" then arith2 (· + ·) lv rv
              else if op = "-" then arith2 (· - ·) lv rv
              else if op = "*" then arith2 (· * ·) lv rv
              else if op = "/" then
                if tyEq lt (.str "int") then do
                  let x ← pyToInt lv
                  let y ← pyToInt rv
                  -- Python `//` is floor division; a zero divisor raises the
                  -- host ZeroDivisionError (there is no check in the source)
                  if y = 0 then .error .zeroDivisionError
                  else .ok (.rv (.vint (Int.fdiv x y)))
                else .error .unmodelled   -- float true division: host float
              else .error (.runtimeError ("Unsupported operation " ++ op))
            match res with
            | .error e => (.exc e, p2.2)
            | .ok v => (.ok (some (lt, v)), p2.2)
          else
            (.exc (.runtimeError ("Unsupported operation " ++ op)), p2.2)
    | .relOp op l r =>
      let p1 := interp fuel (.one l) s
      match unpack p1.1 with
      | .error e => (.exc e, p1.2)
      | .ok (lt, lv) =>
        let p2 := interp fuel (.one r) p1.2
        match unpack p2.1 with
        | .error e => (.exc e, p2.2)
        | .ok (rt, rv) =>
          if ¬ tyEq lt rt then
            (.exc (.runtimeError "Type error in relational operator"), p2.2)
          else
            let res : Except PyExc Bool :=
              if tyIn lt ["int", "float", "char"] then
                if op = "<" then cmp2 (· < ·) lv rv
                else if op = "<=" then cmp2 (· ≤ ·) lv rv
                else if op = "==" then .ok (pyEqB lv rv)
                else if op = ">=" then cmp2 (· ≥ ·) lv rv
                else if op = ">" then cmp2 (· > ·) lv rv
                else if op = "!=" then .ok (!pyEqB lv rv)
                else .error (.runtimeError
                  ("Unsupported operation " ++ op ++ " for " ++ tyRepr lt))
              else if tyIn lt ["bool"] then
                if op = "==" then .ok (pyEqB lv rv)
                else if op = "!=" then .ok (!pyEqB lv rv)
                else .error (.runtimeError
                  ("Unsupported operation " ++ op ++ " for " ++ tyRepr lt))
              else .error (.runtimeError
                ("Unsupported operation " ++ op ++ " for " ++ tyRepr lt))
            match res with
            | .error e => (.exc e, p2.2)
            | .ok b => (.ok (some (.str "bool", .rv (.vbool b))), p2.2)
    | .logicalOp op l r =>
      let p1 := interp fuel (.one l) s
      match unpack p1.1 with
      | .error e => (.exc e, p1.2)
      | .ok (lt, lv) =>
        if ¬ tyEq lt (.str "bool") then
          (.exc (.runtimeError "Type error in logical operator"), p1.2)
        -- short-circuit: the right operand is interpreted only when needed,
        -- and its raw result (possibly None) is passed through
        else if op = "||" then
          if pyTruthy lv then (.ok (some (lt, lv)), p1.2)
          else interp fuel (.one r) p1.2
        else if op = "&&" then
          if pyTruthy lv then interp fuel (.one r) p1.2
          else (.ok (some (lt, lv)), p1.2)
        else (.exc (.runtimeError "Bad logical op"), p1.2)
    | .unaryOp op v =>
      let p1 := interp fuel (.one v) s
      match unpack p1.1 with
      | .error e => (.exc e, p1.2)
      | .ok (vt, vv) =>
        if tyIn vt ["int", "float"] then
          if op = "-" then
            match pyToInt vv with
            | .error e => (.exc e, p1.2)
            | .ok n => (.ok (some (vt, .rv (.vint (n * (-1))))), p1.2)
          else
            -- any other operator returns the numeric value unchanged
            (.ok (some (vt, vv)), p1.2)
        else if tyIn vt ["bool"] then
          -- any operator on a bool applies `not`
          (.ok (some (vt, pyNot vv)), p1.2)
        else (.exc (.runtimeError ("Unsupported operation " ++ op)), p1.2)
    | .grouped v => interp fuel (.one v) s
    | .assignment loc v =>
      -- the right-hand side is evaluated first
      let p1 := interp fuel (.one v) s
      match unpack p1.1 with
      | .error e => (.exc e, p1.2)
      | .ok (rt, rvv) =>
        match dotValue loc with
        | .error e => (.exc e, p1.2)           -- node.location has no `.value`
        | .ok (.nd _) =>
            -- the dict lookup with a node key misses every frame and the
            -- root's message concatenation `"Variable " + name` raises
            (.exc .typeError, p1.2)
        | .ok (.s x) =>
          match envLookup p1.2.env x with
          | .error e => (.exc e, p1.2)
          | .ok (k, lt, lv) =>
            if k = "const" then
              (.exc (.runtimeError ("Constant values cannot be changed - " ++ x)), p1.2)
            else if ¬ tyEq lt rt then
              (.exc (.runtimeError ("Type mismatch in assignment operation - " ++ x)), p1.2)
            else
              match envAssign p1.2.env x (k, lt, rvv) with
              | .error e => (.exc e, p1.2)
              | .ok env' =>
                  -- the source returns `left_type, left_value`: the value the
                  -- target held BEFORE the assignment
                  (.ok (some (lt, lv)), { p1.2 with env := env' })
    | .compound l =>
      let p1 := interp fuel (.compoundLoop l) (pushFrame s)
      (p1.1, dropFrame p1.2)
    | .exprStatement v => interp fuel (.one v) s
    | .printStatement v =>
      let p1 := interp fuel (.one v) s
      match unpack p1.1 with
      | .error e => (.exc e, p1.2)
      | .ok (vt, vv) =>
        let line :=
          if tyEq vt (.str "char") then pyStr vv   -- print(value, end='')
          else if tyEq vt (.str "bool") then (if pyTruthy vv then "true" else "false")
          else pyStr vv   -- the int / float / fallback branches all print(value)
        (.ok none, { p1.2 with out := p1.2.out ++ [line] })
    | .ifStatement t c alt =>
      let p1 := interp fuel (.one t) s
      match unpack p1.1 with
      | .error e => (.exc e, p1.2)
      | .ok (tt, tv) =>
        if ¬ tyEq tt (.str "bool") then
          (.exc (.runtimeError "Test in an If-statement must be a bool"), p1.2)
        else if pyTruthy tv then
          let p2 := interp fuel (.one c) (pushFrame p1.2)
          match p2.1 with
          | .exc e => (.exc e, dropFrame p2.2)
          | .ok _ => (.ok none, dropFrame p2.2)
        else
          match alt with
          | none => (.ok none, p1.2)
          | some altN =>
            match nodeStatements altN with
            | none => (.exc .attributeError, p1.2)   -- node.alternative.statements
            | some [] => (.ok none, p1.2)            -- empty statements: falsy, skipped
            | some (_ :: _) =>
              let p2 := interp fuel (.one altN) (pushFrame p1.2)
              match p2.1 with
              | .exc e => (.exc e, dropFrame p2.2)
              | .ok _ => (.ok none, dropFrame p2.2)
    | .whileStatement t b => interp fuel (.whileJob t b) s
    | .breakStatement => (.exc .brkExc, s)
    | .continueStatement => (.exc .contExc, s)
    | .constDeclaration nm init =>
      match init with
      | none =>
          -- interpret(None, context) reaches the final else branch
          (.exc (.runtimeError "No interp handler for None"), s)
      | some e =>
        let p1 := interp fuel (.one e) s
        match unpack p1.1 with
        | .error e' => (.exc e', p1.2)
        | .ok (vt, v) =>
          if tyIn vt ["int", "float", "bool", "char"] then
            match envDefine p1.2.env nm ("const", vt, v) with
            | .error e' => (.exc e', p1.2)
            | .ok env' => (.ok none, { p1.2 with env := env' })
          else
            (.exc (.runtimeError ("Unsupported type in constant declaration - "
              ++ tyRepr vt ++ " in " ++ nm)), p1.2)
    | .varDeclaration nm ty init =>
      match init with
      | some e =>
        let p1 := interp fuel (.one e) s
        match unpack p1.1 with
        | .error e' => (.exc e', p1.2)
        | .ok (vt, v) =>
          match envDefine p1.2.env nm ("var", vt, v) with
          | .error e' => (.exc e', p1.2)
          | .ok env' => (.ok none, { p1.2 with env := env' })
      | none =>
        match ty with
        | none => (.exc .attributeError, s)   -- node.type.name with type None
        | some a =>
          match envDefine s.env nm ("var", .str a.pyName, .rv (defaultTypeValue a)) with
          | .error e' => (.exc e', s)
          | .ok env' => (.ok none, { s with env := env' })
    | .block l =>
      match l with
      | [] => (.exc (.runtimeError "Nothing to interpret in Block"), s)
      | x :: xs => interp fuel (.seqB (x :: xs)) s
    | .functionDefinition f ps retTy body =>
      match envDefine s.env f ("func", .tnode retTy, .fd ⟨f, ps, retTy, body⟩) with
      | .error e => (.exc e, s)
      | .ok env' => (.ok none, { s with env := env' })
    | .functionReturn e =>
      if ¬ isExpr e then (.exc .assertionError, s)
      else
        let p1 := interp fuel (.one e) s
        match unpack p1.1 with
        | .error e' => (.exc e', p1.2)
        | .ok (rt, rv) => (.exc (.flowBreak rt rv), p1.2)
    | .functionApplication f args =>
      match envLookup s.env f with
      | .error e => (.exc e, s)
      | .ok (_, _, sv) =>
        match sv with
        | .rv _ => (.exc .assertionError, s)   -- assert isinstance(fd, FunctionDefinition)
        | .fd fd =>
          match nodeStatements fd.body with
          | none => (.exc .attributeError, s)  -- fd.fn_code_block.statements
          | some bodyStmts =>
            -- context = context.spawn_child_context(): the fresh frame's
            -- parent is the CALLER'S current environment
            let s1 := pushFrame s
            let pp := interp fuel (.fnParams fd.ps) s1
            match pp.1 with
            | .exc e => (.exc e, dropFrame pp.2)
            | .ok _ =>
              -- fn_parameters and fn_arguments are always objects (truthy),
              -- so the guard reduces to the length comparison
              if fd.ps.length = args.length then
                let pa := interp fuel (.fnArgs f ((fd.ps.map (fun p => p.1)).zip args)) pp.2
                match pa.1 with
                | .exc e => (.exc e, dropFrame pa.2)
                | .ok _ =>
                  let pb := interp fuel (.fnBody bodyStmts) pa.2
                  (pb.1, dropFrame pb.2)
              else
                (.exc (.runtimeError ("interp.py --> Number of arguments in the call to func "
                  ++ f ++ "() mismatches the func definition")), dropFrame pp.2)
  | fuel + 1, .seqB l, s =>
    match l with
    | [] => (.ok none, s)
    | stmt :: rest =>
      let p1 := interp fuel (.one stmt) s
      match p1.1 with
      | .exc e => (.exc e, p1.2)
      | .ok _ => interp fuel (.seqB rest) p1.2
  | fuel + 1, .fnParams ps, s =>
    match ps with
    | [] => (.ok none, s)
    | (pname, ty, init) :: rest =>
      match init with
      | some e =>
        -- the default expression is interpreted in the CALLEE context
        let p1 := interp fuel (.one e) s
        match unpack p1.1 with
        | .error e' => (.exc e', p1.2)
        | .ok (vt, v) =>
          match envDefine p1.2.env pname ("var", vt, v) with
          | .error e' => (.exc e', p1.2)
          | .ok env' => interp fuel (.fnParams rest) { p1.2 with env := env' }
      | none =>
        match envDefine s.env pname ("var", .str ty.pyName, .rv (defaultTypeValue ty)) with
        | .error e' => (.exc e', s)
        | .ok env' => interp fuel (.fnParams rest) { s with env := env' }
  | fuel + 1, .fnArgs f pairs, s =>
    match pairs with
    | [] => (.ok none, s)
    | (pname, argNode) :: rest =>
      match s.env with
      | [] => (.exc .indexError, s)   -- unreachable: the callee chain is nonempty
      | frame :: callerEnv =>
        -- the argument is evaluated in the caller's environment
        -- (save_current_context), i.e. the tail of the callee chain
        let p1 := interp fuel (.one argNode) ⟨callerEnv, s.out⟩
        let s1 : St := ⟨frame :: p1.2.env, p1.2.out⟩
        match unpack p1.1 with
        | .error e => (.exc e, s1)
        | .ok (ts, vs) =>
          match envLookup s1.env pname with
          | .error e => (.exc e, s1)
          | .ok (kd, td, _) =>
            let vd : Except PyExc StoredVal :=
              if tyEq ts td && tyEq td (.str "int") then
                (pyToInt vs).map (fun n => .rv (.vint n))
              else if tyEq ts td && tyEq td (.str "float") then
                .error .unmodelled        -- float(_vs): a host float value
              else if tyEq ts td && tyEq td (.str "char") then
                .error .typeError         -- eval(_vs) of a non-string
              else if tyEq ts td && tyEq td (.str "bool") then
                -- the source tests `argument.value == 'true'`: a SYNTACTIC
                -- attribute of the argument node, not its evaluated value
                match dotValue argNode with
                | .error e => .error e
                | .ok (.s lit) => .ok (.rv (.vbool (lit = "true")))
                | .ok (.nd _) => .ok (.rv (.vbool false))
              else
                .error (.runtimeError ("interp.py --> Type mismatch in " ++ f
                  ++ "() func call. Expected " ++ tyRepr td
                  ++ " type in argument " ++ pname))
            match vd with
            | .error e => (.exc e, s1)
            | .ok v =>
              match envAssign s1.env pname (kd, td, v) with
              | .error e => (.exc e, s1)
              | .ok env' => interp fuel (.fnArgs f rest) ⟨env', s1.out⟩
  | fuel + 1, .fnBody l, s =>
    match l with
    | [] =>
        -- the body ran out without a return statement: the source returns
        -- None (no error)
        (.ok none, s)
    | .functionReturn e :: _rest =>
      -- the special top-level case: evaluate and return directly, with no
      -- get_payload conversion
      if ¬ isExpr e then (.exc .assertionError, s)
      else
        let p1 := interp fuel (.one e) s
        match unpack p1.1 with
        | .error e' => (.exc e', p1.2)
        | .ok p => (.ok (some p), p1.2)
    | stmt :: rest =>
      let p1 := interp fuel (.one stmt) s
      match p1.1 with
      | .exc (.flowBreak t v) =>
        match getPayload t v with
        | .error e => (.exc e, p1.2)
        | .ok p => (.ok (some p), p1.2)
      | .exc e => (.exc e, p1.2)
      | .ok _ => interp fuel (.fnBody rest) p1.2
  | fuel + 1, .whileJob t b, s =>
    let p1 := interp fuel (.one t) s
    match unpack p1.1 with
    | .error e => (.exc e, p1.2)
    | .ok (tt, tv) =>
      if ¬ tyEq tt (.str "bool") then
        (.exc (.runtimeError "Test in a While-statement must be a bool"), p1.2)
      else if pyTruthy tv then
        -- the body (a Block) runs in the SAME context: no child is spawned
        let p2 := interp fuel (.one b) p1.2
        match p2.1 with
        | .exc .brkExc => (.ok none, p2.2)
        | .exc .contExc => interp fuel (.whileJob t b) p2.2
        | .exc e => (.exc e, p2.2)
        | .ok _ => interp fuel (.whileJob t b) p2.2
      else (.ok none, p1.2)
  | fuel + 1, .compoundLoop l, s =>
    match l with
    | [] => (.exc .indexError, s)   -- statements[-1] of an empty list
    | stmt :: rest =>
      match rest with
      | [] =>
          -- the last statement: its value is the compound's value
          interp fuel (.one stmt) s
      | r :: rs =>
        let p1 := interp fuel (.one stmt) s
        match p1.1 with
        | .exc e => (.exc e, p1.2)
        | .ok _ => interp fuel (.compoundLoop (r :: rs)) p1.2


/-- `interpret_program(model)`: interpretation in a fresh root context. -/
def interpProgram (fuel : Nat) (model : Node) : Res × St :=
  interp fuel (.one model) ⟨[[]], []⟩

/-- Classification used by the error-handling claims: a *managed* evaluation
error is the interpreter's own `RuntimeError` diagnostic; every other
exception is an unhandled host-level crash. -/
def isManagedDiag : Res → Bool
  | .exc (.runtimeError _) => true
  | _ => false

/-- Evolution relation between an `env` dict before and after an evaluation:
every existing binding persists (dicts never shrink), `const` bindings
persist **unchanged**, and a binding that was not `const` never becomes
`const`. -/
def frameOK (f f' : Frame) : Prop :=
  ∀ x b, frameGet f x = some b →
    ∃ b', frameGet f' x = some b' ∧
      (b.1 = "const" → b' = b) ∧ (b.1 ≠ "const" → b'.1 ≠ "const")

/-- Pointwise `frameOK` between two scope chains of the same shape (the
evaluator restores the chain's frame count on every exit path). -/
def EnvOK : Env → Env → Prop
  | [], [] => True
  | f :: e, f' :: e' => frameOK f f' ∧ EnvOK e e'
  | _, _ => False

/-- `x` is bound as a `const` with type `t` and value `v` in the `i`-th frame
from the innermost end of the chain. -/
def constAt (env : Env) (i : Nat) (x : String) (t : StoredTy) (v : StoredVal) : Prop :=
  ∃ f, env.get? i = some f ∧ frameGet f x = some ("const", t, v)

/-- Side condition for the raw argument-binding job: each parameter name to
bind is present in the innermost (callee) frame with a non-`const` kind.
The `FunctionApplication` case establishes this before entering the loop
(every parameter is `define`d with kind `'var'`); for all other jobs the
condition is trivial. -/
def JobOK : Job → Env → Prop
  | .fnArgs _ pairs, env =>
      ∀ pr ∈ pairs, ∃ k t v, frameGet (env.headD []) pr.1 = some (k, t, v) ∧ k ≠ "const"
  | _, _ => True

end WabbitInterp

/-! # Theorems

All definitions are above; the claim theorems, their supporting lemmas,
witnesses and counterexamples follow. -/

namespace WabbitTok

/-- C6, failing input.  The claim says the tokenizer never fails—whitespace,
including trailing whitespace at end of input, is skipped—and that each
newline advances the line number by one.  The code instead reads `text[n]`
right after `n += 1` in the whitespace branch with no bounds check
(tokenize.py lines 125–129): on the input `" "` (a single trailing space) this
raises `IndexError` instead of emitting the `EOF` token; and on `" \n"` the
newline is counted twice (once in the whitespace branch's lookahead and once
by the newline branch), so `EOF` carries line number 3 rather than 2. -/
theorem tokenize_trailing_space_crashes :
    tokenize " " = some (.error .indexError) ∧
    tokenize " \n" = some (.ok [⟨"EOF", "EOF", 3, 2⟩]) := by
  constructor <;> rfl

end WabbitTok

namespace WVM

set_option maxHeartbeats 1600000 in
/-- Every non-`HALT` instruction leaves the `running` flag set; only the
`HALT` handler assigns `self.running = False`. -/
theorem exec_preserves_running (ins : Instr) (instrs : List Instr) (st st' : VMState)
    (hne : ins ≠ .HALT) (h : exec ins instrs st = .ok st') :
    st'.running = st.running := by
  cases ins <;> first
    | exact absurd rfl hne
    | (rcases hi : st.istack with _ | ⟨a, _ | ⟨b, rest⟩⟩ <;>
       rcases hs : st.stack with _ | ⟨f, fs⟩ <;>
       simp only [exec, ipush, ipop, hi, hs, bind, Except.bind, pure, Except.pure] at h <;>
       (repeat' split at h) <;>
       first
         | exact Except.noConfusion h
         | (injection h with h; subst h; rfl))

theorem runLoop_zero (instrs : List Instr) (st : VMState) :
    runLoop instrs 0 st =
      if st.running = false then .halted st else .outOfFuel := rfl

theorem runLoop_succ (instrs : List Instr) (fuel : Nat) (st : VMState) :
    runLoop instrs (fuel + 1) st =
      if st.running = false then .halted st
      else
        match instrs.get? st.pc with
        | none => .crashed .indexError
        | some ins =>
          match exec ins instrs { st with pc := st.pc + 1 } with
          | .error e => .crashed e
          | .ok st' => runLoop instrs fuel st' := rfl

/-- `runLoop` can report `.halted` only when it enters on an already-stopped
state or a `HALT` instruction occurs in the program (the only assignment of
`self.running = False` is the `HALT` handler). -/
theorem runLoop_halted_has_halt (instrs : List Instr) :
    ∀ (fuel : Nat) (st st' : VMState), runLoop instrs fuel st = .halted st' →
      st.running = false ∨ ∃ i, instrs.get? i = some .HALT := by
  intro fuel
  induction fuel with
  | zero =>
    intro st st' h
    rw [runLoop_zero] at h
    split at h
    · left; assumption
    · exact RunResult.noConfusion h
  | succ n ih =>
    intro st st' h
    rw [runLoop_succ] at h
    split at h
    · left; assumption
    · cases hins : instrs.get? st.pc with
      | none => rw [hins] at h; exact RunResult.noConfusion h
      | some ins =>
        simp only [hins] at h
        right
        cases hhalt : ins == .HALT with
        | true =>
          exact ⟨st.pc, by rwa [eq_of_beq hhalt] at hins⟩
        | false =>
          cases hex : exec ins instrs { st with pc := st.pc + 1 } with
          | error e => simp only [hex] at h; exact RunResult.noConfusion h
          | ok st2 =>
            simp only [hex] at h
            rcases ih st2 st' h with h2 | h2
            · exfalso
              rename_i hrun
              have hr : st2.running = true := by
                rw [exec_preserves_running ins instrs _ st2
                      (by intro hc; rw [hc] at hhalt; simp at hhalt) hex]
                simpa using eq_true_of_ne_false hrun
              rw [hr] at h2; exact Bool.noConfusion h2
            · exact h2

/-- C5 (amended): the run loop reaches the `Halted` state only by executing a
`HALT` instruction; when the program counter moves past the last instruction
while still running, the next instruction fetch raises `IndexError` (the run
fails) instead of halting normally.  Conjuncts: (1) a completed `run` implies
a `HALT` instruction occurs in the program; (2) an in-range-exhausted pc
crashes with `IndexError`; (3) executing `HALT` halts with `running` cleared. -/
theorem wvm_halted_iff_halt_executed :
    (∀ (instrs : List Instr) (fuel : Nat) (st' : VMState),
        run instrs fuel = .halted st' → ∃ i, instrs.get? i = some .HALT) ∧
    (∀ (instrs : List Instr) (fuel : Nat) (st : VMState),
        st.running = true → instrs.get? st.pc = none →
        runLoop instrs (fuel + 1) st = .crashed .indexError) ∧
    (∀ (instrs : List Instr) (fuel : Nat) (st : VMState),
        st.running = true → instrs.get? st.pc = some .HALT →
        runLoop instrs (fuel + 1) st = .halted { st with pc := st.pc + 1, running := false }) := by
  refine ⟨fun instrs fuel st' h => ?_, fun instrs fuel st hr hpc => ?_, fun instrs fuel st hr hpc => ?_⟩
  · rcases runLoop_halted_has_halt instrs fuel initState st' h with h2 | h2
    · exact absurd h2 (by simp [initState])
    · exact h2
  · rw [runLoop_succ, if_neg (by simp [hr]), hpc]
  · rw [runLoop_succ, if_neg (by simp [hr]), hpc]
    show runLoop instrs fuel { st with pc := st.pc + 1, running := false } = _
    cases fuel with
    | zero => rw [runLoop_zero, if_pos rfl]
    | succ n => rw [runLoop_succ, if_pos rfl]

/-- Witness for `wvm_halted_iff_halt_executed`, applying each conjunct at a
concrete machine configuration. -/
theorem wvm_halted_iff_halt_executed_witness :
    (∃ i, ([Instr.HALT] : List Instr).get? i = some .HALT) ∧
    runLoop [] (0 + 1) initState = .crashed .indexError ∧
    runLoop [Instr.HALT] (0 + 1) initState
      = .halted { initState with pc := 1, running := false } :=
  ⟨wvm_halted_iff_halt_executed.1 [.HALT] 3 ⟨1, false, [], [], [⟨none, []⟩], []⟩ rfl,
   wvm_halted_iff_halt_executed.2.1 [] 0 initState rfl rfl,
   wvm_halted_iff_halt_executed.2.2 [.HALT] 0 initState rfl rfl⟩

/-- C5, counterexample to the claim as stated: running a program with no
`HALT` lets the pc move past the last instruction, and the run **crashes**
with `IndexError` (`instructions[self.pc]` has no bounds check) instead of
terminating in the `Halted` state. -/
theorem wvm_run_off_end_crashes :
    run [.IPUSH 1] 5 = .crashed .indexError := by rfl

end WVM

namespace WabbitCheck

/-- C4: the claim says every type error is accumulated as a diagnostic on the
program object without aborting, and that `check_program` returns failure iff
an error was reported.  In fact the *first* error report crashes: on the model
`2 + 3.5` (a genuine type error) the call `self.program.error(message)`
raises `AttributeError` because `Program` defines `error_message` but not
`error`; `have_errors` is never set (its only writer, `error_message`, is
never invoked by the checker).  An error-free model, by contrast, checks to
success. -/
theorem check_error_report_crashes :
    checkProgram ⟨.binop "+" (.integer "2") (.float "3.5"), false⟩
        = .error .attributeError ∧
    checkProgram ⟨.binop "+" (.integer "2") (.integer "3"), false⟩ = .ok true := by
  constructor <;> rfl

end WabbitCheck

namespace WabbitInterp

/-- Initial state of `interpret_program`: one empty root context, no output. -/
def st0 : St := ⟨[[]], []⟩

/-! ## Environment lemmas (`Context.lookup` / `define` / `assign`) -/

theorem find?_append_of_none {α : Type} {p : α → Bool} {l1 l2 : List α}
    (h : l1.find? p = none) : (l1 ++ l2).find? p = l2.find? p := by
  induction l1 with
  | nil => rfl
  | cons a l ih =>
    rcases hpa : p a with _ | _
    · have hna : ¬ p a = true := by rw [hpa]; exact Bool.false_ne_true
      rw [List.find?_cons_of_neg _ hna] at h
      rw [List.cons_append, List.find?_cons_of_neg _ hna]
      exact ih h
    · rw [List.find?_cons_of_pos _ hpa] at h
      exact Option.noConfusion h

theorem find?_append_of_some {α : Type} {p : α → Bool} {l1 l2 : List α} {a : α}
    (h : l1.find? p = some a) : (l1 ++ l2).find? p = some a := by
  induction l1 with
  | nil => exact Option.noConfusion h
  | cons b l ih =>
    rcases hpb : p b with _ | _
    · have hnb : ¬ p b = true := by rw [hpb]; exact Bool.false_ne_true
      rw [List.find?_cons_of_neg _ hnb] at h
      rw [List.cons_append, List.find?_cons_of_neg _ hnb]
      exact ih h
    · rw [List.find?_cons_of_pos _ hpb] at h
      rw [List.cons_append, List.find?_cons_of_pos _ hpb]
      exact h

/-- Appending a fresh binding makes it visible (`define` into a dict that did
not hold the name). -/
theorem frameGet_append_self {f : Frame} {x : String} (b : Binding)
    (h : frameGet f x = none) : frameGet (f ++ [(x, b)]) x = some b := by
  unfold frameGet at *
  have hf : f.find? (fun p => p.1 = x) = none := by
    rcases hq : f.find? (fun p => p.1 = x) with _ | q
    · exact hq
    · rw [hq] at h; exact Option.noConfusion h
  rw [find?_append_of_none hf]
  simp [List.find?]

/-- Appending entries leaves the existing bindings visible. -/
theorem frameGet_append_of_some {f : Frame} {x : String} {b : Binding} (l : Frame)
    (h : frameGet f x = some b) : frameGet (f ++ l) x = some b := by
  unfold frameGet at *
  rcases hq : f.find? (fun p => p.1 = x) with _ | q
  · rw [hq] at h; exact Option.noConfusion h
  · rw [hq] at h
    rw [find?_append_of_some hq]
    exact h

/-- Appending a binding for a different name does not affect a lookup. -/
theorem frameGet_append_ne {f : Frame} {x y : String} (b : Binding)
    (hne : y ≠ x) : frameGet (f ++ [(x, b)]) y = frameGet f y := by
  unfold frameGet
  rcases hq : f.find? (fun p => p.1 = y) with _ | q
  · rw [find?_append_of_none hq, hq]
    rw [List.find?_cons_of_neg _ (by simp; exact fun hc => hne hc.symm)]
    rfl
  · rw [find?_append_of_some hq, hq]

theorem find?_map_set {f : Frame} {x : String} (b : Binding) :
    (f.map (fun p => if p.1 = x then (x, b) else p)).find? (fun p => p.1 = x)
      = ((f.find? (fun p => p.1 = x)).map (fun _ => (x, b))) := by
  induction f with
  | nil => rfl
  | cons p ps ih =>
    by_cases hp : p.1 = x
    · simp only [List.map_cons]
      rw [if_pos hp, List.find?_cons_of_pos _ (by simp),
          List.find?_cons_of_pos _ (by simp [hp])]
      rfl
    · simp only [List.map_cons]
      rw [if_neg hp, List.find?_cons_of_neg _ (by simp [hp]),
          List.find?_cons_of_neg _ (by simp [hp])]
      exact ih

theorem find?_map_set_ne {f : Frame} {x y : String} (b : Binding) (hne : y ≠ x) :
    (f.map (fun p => if p.1 = x then (x, b) else p)).find? (fun p => p.1 = y)
      = f.find? (fun p => p.1 = y) := by
  induction f with
  | nil => rfl
  | cons p ps ih =>
    by_cases hp : p.1 = x
    · simp only [List.map_cons]
      rw [if_pos hp,
          List.find?_cons_of_neg _ (by simp; exact fun hc => hne hc.symm),
          List.find?_cons_of_neg _ (by simp [hp]; exact fun hc => hne hc.symm)]
      exact ih
    · simp only [List.map_cons]
      rw [if_neg hp]
      by_cases hpy : p.1 = y
      · rw [List.find?_cons_of_pos _ (by simp [hpy]), List.find?_cons_of_pos _ (by simp [hpy])]
      · rw [List.find?_cons_of_neg _ (by simp [hpy]), List.find?_cons_of_neg _ (by simp [hpy])]
        exact ih

/-- After `frameSet` the name maps to the new binding (update or append). -/
theorem frameGet_frameSet_self (f : Frame) (x : String) (b : Binding) :
    frameGet (frameSet f x b) x = some b := by
  unfold frameSet
  split
  · rename_i h
    unfold frameGet
    rw [find?_map_set]
    rcases hq : f.find? (fun p => p.1 = x) with _ | q
    · rw [hq] at h; simp at h
    · rw [hq]; rfl
  · rename_i h
    refine frameGet_append_self b ?_
    unfold frameGet
    rcases hq : f.find? (fun p => p.1 = x) with _ | q
    · rw [hq]; rfl
    · rw [hq] at h; simp at h

/-- `frameSet` leaves other names' bindings untouched. -/
theorem frameGet_frameSet_ne (f : Frame) (x y : String) (b : Binding)
    (hne : y ≠ x) : frameGet (frameSet f x b) y = frameGet f y := by
  unfold frameSet
  split
  · unfold frameGet
    rw [find?_map_set_ne b hne]
  · exact frameGet_append_ne b hne

/-- A name visible in the innermost frame resolves there. -/
theorem envLookup_head {f : Frame} {x : String} {b : Binding} (rest : Env)
    (h : frameGet f x = some b) : envLookup (f :: rest) x = .ok b := by
  unfold envLookup
  rw [h]

/-- A successful lookup guarantees a successful assignment. -/
theorem envAssign_ok_of_lookup_ok {env : Env} {x : String} {b0 : Binding}
    (h : envLookup env x = .ok b0) (b : Binding) :
    ∃ env', envAssign env x b = .ok env' := by
  induction env with
  | nil => exact absurd h (by simp [envLookup])
  | cons f rest ih =>
    unfold envAssign
    by_cases hf : (frameGet f x).isSome
    · rw [if_pos hf]; exact ⟨_, rfl⟩
    · rw [if_neg hf]
      have hl : envLookup rest x = .ok b0 := by
        unfold envLookup at h
        rcases hq : frameGet f x with _ | q
        · rwa [hq] at h
        · rw [hq] at hf; simp at hf
      obtain ⟨env', henv'⟩ := ih hl
      exact ⟨_, by rw [henv']; rfl⟩

/-- After a successful `assign`, the innermost visible binding of the name is
the assigned one (the current frame always receives a copy). -/
theorem envLookup_after_assign {env env' : Env} {x : String} {b : Binding}
    (h : envAssign env x b = .ok env') : envLookup env' x = .ok b := by
  cases env with
  | nil => exact absurd h (by simp [envAssign])
  | cons f rest =>
    unfold envAssign at h
    by_cases hf : (frameGet f x).isSome
    · rw [if_pos hf] at h
      cases h
      exact envLookup_head _ (frameGet_frameSet_self f x b)
    · rw [if_neg hf] at h
      rcases hq : envAssign rest x b with e | rest'
      · rw [hq] at h; exact Except.noConfusion h
      · rw [hq] at h
        cases h
        exact envLookup_head _ (frameGet_frameSet_self f x b)

/-! ## Environment-evolution lemmas for the const-immutability invariant -/

theorem frameOK_refl (f : Frame) : frameOK f f :=
  fun _ b hb => ⟨b, hb, fun _ => rfl, fun h => h⟩

theorem frameOK_trans {f g h : Frame} (h1 : frameOK f g) (h2 : frameOK g h) :
    frameOK f h := by
  intro x b hb
  obtain ⟨b', hb', hc', hn'⟩ := h1 x b hb
  obtain ⟨b'', hb'', hc'', hn''⟩ := h2 x b' hb'
  refine ⟨b'', hb'', fun hcb => ?_, fun hnb => hn'' (hn' hnb)⟩
  have := hc' hcb
  subst this
  exact hc'' hcb

theorem EnvOK_refl (env : Env) : EnvOK env env := by
  induction env with
  | nil => trivial
  | cons f e ih => exact ⟨frameOK_refl f, ih⟩

theorem EnvOK_cons {f f' : Frame} {e e' : Env} (hf : frameOK f f') (he : EnvOK e e') :
    EnvOK (f :: e) (f' :: e') := ⟨hf, he⟩

theorem EnvOK_cons_inv {f : Frame} {e e' : Env} (h : EnvOK (f :: e) e') :
    ∃ f' e'', e' = f' :: e'' ∧ frameOK f f' ∧ EnvOK e e'' := by
  cases e' with
  | nil => exact absurd h (by simp [EnvOK])
  | cons f' e'' => exact ⟨f', e'', rfl, h.1, h.2⟩

theorem EnvOK_trans : ∀ {a b c : Env}, EnvOK a b → EnvOK b c → EnvOK a c := by
  intro a
  induction a with
  | nil =>
    intro b c h1 h2
    cases b with
    | nil => cases c with
      | nil => trivial
      | cons g cs => exact absurd h2 (by simp [EnvOK])
    | cons g bs => exact absurd h1 (by simp [EnvOK])
  | cons f as ih =>
    intro b c h1 h2
    obtain ⟨g, bs, rfl, hfg, has⟩ := EnvOK_cons_inv h1
    obtain ⟨h', cs, rfl, hgh, hbs⟩ := EnvOK_cons_inv h2
    exact ⟨frameOK_trans hfg hgh, ih has hbs⟩

theorem EnvOK_tail {f : Frame} {e e' : Env} (h : EnvOK (f :: e) e') :
    EnvOK e e'.tail := by
  obtain ⟨f', e'', rfl, _, he⟩ := EnvOK_cons_inv h
  exact he

/-- A `define` into a frame (the name being absent) only appends. -/
theorem frameOK_append_new {f : Frame} {x : String} (b : Binding)
    (_h : frameGet f x = none) : frameOK f (f ++ [(x, b)]) := by
  intro y by' hby
  refine ⟨by', ?_, fun _ => rfl, fun hn => hn⟩
  exact frameGet_append_of_some _ hby

/-- A `frameSet` over a non-`const` binding, writing a non-`const` binding,
is an admissible frame evolution. -/
theorem frameOK_set {f : Frame} {x : String} {bOld : Binding} (b : Binding)
    (hget : frameGet f x = some bOld) (hOld : bOld.1 ≠ "const")
    (hNew : b.1 ≠ "const") : frameOK f (frameSet f x b) := by
  intro y by' hby
  by_cases hxy : y = x
  · subst hxy
    rw [hget] at hby
    cases hby
    exact ⟨b, frameGet_frameSet_self f y b, fun hc => absurd hc hOld, fun _ => hNew⟩
  · exact ⟨by', by rw [frameGet_frameSet_ne f x y b hxy]; exact hby,
      fun _ => rfl, fun hn => hn⟩

/-- `frameSet` on an absent name appends, so it is admissible regardless of
the written binding's kind. -/
theorem frameOK_set_absent {f : Frame} {x : String} (b : Binding)
    (h : frameGet f x = none) : frameOK f (frameSet f x b) := by
  intro y by' hby
  by_cases hxy : y = x
  · subst hxy; rw [h] at hby; exact Option.noConfusion hby
  · exact ⟨by', by rw [frameGet_frameSet_ne f x y b hxy]; exact hby,
      fun _ => rfl, fun hn => hn⟩

/-- Unfolding equation for `envDefine` on a nonempty chain. -/
theorem envDefine_cons_eq (f : Frame) (rest : Env) (x : String) (b : Binding) :
    envDefine (f :: rest) x b = match frameGet f x with
      | some (kind, _, _) =>
          if kind = "func" then
            .error (.runtimeError ("Function " ++ x ++ "() already defined"))
          else
            .error (.runtimeError ("Variable " ++ x ++ " already declared"))
      | none => .ok ((f ++ [(x, b)]) :: rest) := rfl

/-- `Context.define` is an admissible environment evolution. -/
theorem envDefine_envOK {env env' : Env} {x : String} {b : Binding}
    (h : envDefine env x b = .ok env') : EnvOK env env' := by
  cases env with
  | nil => exact absurd h (by simp [envDefine])
  | cons f rest =>
    rw [envDefine_cons_eq] at h
    rcases hq : frameGet f x with _ | q
    · rw [hq] at h
      cases h
      exact EnvOK_cons (frameOK_append_new b hq) (EnvOK_refl rest)
    · rcases q with ⟨k, t, v⟩
      rw [hq] at h
      by_cases hk : k = "func" <;> simp [hk] at h

/-- `Context.assign` — when the innermost visible binding of the name is not
`const` and the written binding is not `const` — is an admissible evolution:
the found frame's binding is replaced, and every inner frame on the search
path gains a copy under the absent-name rule. -/
theorem envAssign_envOK : ∀ {env env' : Env} {x : String} {k : String}
    {t0 : StoredTy} {v0 : StoredVal} {b : Binding},
    envLookup env x = .ok (k, t0, v0) → k ≠ "const" → b.1 ≠ "const" →
    envAssign env x b = .ok env' → EnvOK env env' := by
  intro env
  induction env with
  | nil =>
    intro env' x k t0 v0 b hl _ _ _
    exact absurd hl (by simp [envLookup])
  | cons f rest ih =>
    intro env' x k t0 v0 b hl hk hb ha
    unfold envAssign at ha
    unfold envLookup at hl
    rcases hq : frameGet f x with _ | q
    · rw [hq] at hl
      rw [if_neg (by rw [hq]; simp)] at ha
      rcases hrec : envAssign rest x b with e | rest'
      · rw [hrec] at ha; exact Except.noConfusion ha
      · rw [hrec] at ha
        cases ha
        exact EnvOK_cons (frameOK_set_absent b hq) (ih hl hk hb hrec)
    · rw [hq] at hl
      cases hl
      rw [if_pos (by rw [hq]; simp)] at ha
      cases ha
      exact EnvOK_cons (frameOK_set b hq hk hb) (EnvOK_refl rest)

/-- `Context.assign` when the name is visible in the innermost frame updates
exactly that frame. -/
theorem envAssign_head {f : Frame} {x : String} {b0 : Binding} (rest : Env) (b : Binding)
    (h : frameGet f x = some b0) :
    envAssign (f :: rest) x b = .ok (frameSet f x b :: rest) := by
  unfold envAssign
  rw [if_pos (by rw [h]; simp)]

/-- `EnvOK` preserves `const` bindings at every depth. -/
theorem EnvOK_constAt : ∀ {env env' : Env}, EnvOK env env' →
    ∀ {i : Nat} {x : String} {t : StoredTy} {v : StoredVal},
    constAt env i x t v → constAt env' i x t v := by
  intro env
  induction env with
  | nil =>
    intro env' h i x t v hc
    obtain ⟨f, hf, _⟩ := hc
    simp at hf
  | cons f rest ih =>
    intro env' h i x t v hc
    obtain ⟨f', e'', rfl, hfOK, heOK⟩ := EnvOK_cons_inv h
    obtain ⟨g, hg, hget⟩ := hc
    cases i with
    | zero =>
      cases hg
      obtain ⟨b', hb', hcEq, _⟩ := hfOK x _ hget
      have := hcEq rfl
      subst this
      exact ⟨f', rfl, hb'⟩
    | succ j =>
      have hrec : constAt rest j x t v := ⟨g, hg, hget⟩
      obtain ⟨g', hg', hget'⟩ := ih heOK hrec
      exact ⟨g', by simpa using hg', hget'⟩

/-- The successful shape of a `define`: the chain is nonempty, the innermost
frame lacked the name, and the new binding is appended there. -/
theorem envDefine_ok_shape {env env' : Env} {x : String} {b : Binding}
    (h : envDefine env x b = .ok env') :
    ∃ f rest, env = f :: rest ∧ frameGet f x = none ∧
      env' = (f ++ [(x, b)]) :: rest := by
  cases env with
  | nil => exact absurd h (by simp [envDefine])
  | cons f rest =>
    rw [envDefine_cons_eq] at h
    rcases hq : frameGet f x with _ | q
    · rw [hq] at h
      cases h
      exact ⟨f, rest, rfl, hq, rfl⟩
    · rcases q with ⟨k, t, v⟩
      rw [hq] at h
      by_cases hk : k = "func" <;> simp [hk] at h

/-- One-step unfolding of the function-body loop on a statement that is not a
top-level `return`. -/
theorem interp_fnBody_cons_eq (fuel : Nat) (stmt : Node) (rest : List Node) (s : St)
    (h : ∀ e, stmt ≠ .functionReturn e) :
    interp (fuel + 1) (.fnBody (stmt :: rest)) s =
      (let p1 := interp fuel (.one stmt) s
       match p1.1 with
       | .exc (.flowBreak t v) =>
         match getPayload t v with
         | .error e => (.exc e, p1.2)
         | .ok p => (.ok (some p), p1.2)
       | .exc e => (.exc e, p1.2)
       | .ok _ => interp fuel (.fnBody rest) p1.2) := by
  cases stmt <;> first | (exact absurd rfl (h _)) | rfl

set_option maxHeartbeats 3200000 in
/-- The central environment invariant: every evaluation step is an admissible
environment evolution (`EnvOK`) — existing bindings persist positionally,
`const` bindings persist unchanged, and non-`const` bindings never become
`const` — and a completed parameter-initialization loop leaves every
parameter bound in the callee frame with a non-`const` kind. -/
theorem interp_envOK_aux : ∀ fuel : Nat,
    (∀ (job : Job) (s : St), JobOK job s.env → EnvOK s.env (interp fuel job s).2.env) ∧
    (∀ (ps : List (String × TAnn × Option Node)) (s s' : St) (r0 : Option PyVal),
        interp fuel (.fnParams ps) s = (.ok r0, s') →
        ∀ p ∈ ps, ∃ k t v, frameGet (s'.env.headD []) p.1 = some (k, t, v) ∧ k ≠ "const") := by
  intro fuel
  induction fuel with
  | zero =>
    constructor
    · intro job s _
      exact EnvOK_refl s.env
    · intro ps s s' r0 h p hp
      simp [interp] at h
  | succ fuel ih =>
    obtain ⟨ihP, ihQ⟩ := ih
    constructor
    · intro job s hok
      cases job with
      | one nd =>
        cases nd with
        | integer v => exact EnvOK_refl s.env
        | boolean b => exact EnvOK_refl s.env
        | name x =>
          simp only [interp]
          split <;> exact EnvOK_refl s.env
        | binOp op l r =>
          simp only [interp]
          rcases hp1 : interp fuel (.one l) s with ⟨r1, s1⟩
          have h1 : EnvOK s.env s1.env := by
            have := ihP (.one l) s trivial; rwa [hp1] at this
          simp only [hp1]
          rcases hu1 : unpack r1 with e | ⟨lt, lv⟩ <;> simp only [hu1]
          · exact h1
          · rcases hp2 : interp fuel (.one r) s1 with ⟨r2, s2⟩
            have h2 : EnvOK s1.env s2.env := by
              have := ihP (.one r) s1 trivial; rwa [hp2] at this
            have h12 := EnvOK_trans h1 h2
            simp only [hp2]
            rcases hu2 : unpack r2 with e | ⟨rt, rv⟩ <;> simp only [hu2]
            · exact h12
            · repeat' split
              all_goals exact h12
        | relOp op l r =>
          simp only [interp]
          rcases hp1 : interp fuel (.one l) s with ⟨r1, s1⟩
          have h1 : EnvOK s.env s1.env := by
            have := ihP (.one l) s trivial; rwa [hp1] at this
          simp only [hp1]
          rcases hu1 : unpack r1 with e | ⟨lt, lv⟩ <;> simp only [hu1]
          · exact h1
          · rcases hp2 : interp fuel (.one r) s1 with ⟨r2, s2⟩
            have h2 : EnvOK s1.env s2.env := by
              have := ihP (.one r) s1 trivial; rwa [hp2] at this
            have h12 := EnvOK_trans h1 h2
            simp only [hp2]
            rcases hu2 : unpack r2 with e | ⟨rt, rv⟩ <;> simp only [hu2]
            · exact h12
            · repeat' split
              all_goals exact h12
        | logicalOp op l r =>
          simp only [interp]
          rcases hp1 : interp fuel (.one l) s with ⟨r1, s1⟩
          have h1 : EnvOK s.env s1.env := by
            have := ihP (.one l) s trivial; rwa [hp1] at this
          simp only [hp1]
          rcases hu1 : unpack r1 with e | ⟨lt, lv⟩ <;> simp only [hu1]
          · exact h1
          · have hr : EnvOK s.env (interp fuel (.one r) s1).2.env :=
              EnvOK_trans h1 (ihP (.one r) s1 trivial)
            repeat' split
            all_goals first | exact h1 | exact hr
        | unaryOp op v =>
          simp only [interp]
          rcases hp1 : interp fuel (.one v) s with ⟨r1, s1⟩
          have h1 : EnvOK s.env s1.env := by
            have := ihP (.one v) s trivial; rwa [hp1] at this
          simp only [hp1]
          rcases hu1 : unpack r1 with e | ⟨vt, vv⟩ <;> simp only [hu1]
          · exact h1
          · repeat' split
            all_goals exact h1
        | grouped v => exact ihP (.one v) s trivial
        | assignment loc v =>
          simp only [interp]
          rcases hp1 : interp fuel (.one v) s with ⟨r1, s1⟩
          have h1 : EnvOK s.env s1.env := by
            have := ihP (.one v) s trivial; rwa [hp1] at this
          simp only [hp1]
          rcases hu1 : unpack r1 with e | ⟨rt, rvv⟩ <;> simp only [hu1]
          · exact h1
          · rcases hdv : dotValue loc with e | av
            · simp only [hdv]
              exact h1
            · rcases av with str1 | nd1
              · simp only [hdv]
                rcases hlk : envLookup s1.env str1 with e | ⟨k, lt, lv⟩ <;> simp only [hlk]
                · exact h1
                · by_cases hk : k = "const"
                  · rw [if_pos hk]; exact h1
                  · rw [if_neg hk]
                    by_cases hty : tyEq lt rt = true
                    · rw [if_neg (by simp [hty])]
                      rcases hassign : envAssign s1.env str1 (k, lt, rvv) with e | env'
                        <;> simp only [hassign]
                      · exact h1
                      · exact EnvOK_trans h1 (envAssign_envOK hlk hk hk hassign)
                    · rw [if_pos (by simp [hty])]
                      exact h1
              · simp only [hdv]
                exact h1
        | compound l => exact EnvOK_tail (ihP (.compoundLoop l) (pushFrame s) trivial)
        | exprStatement v => exact ihP (.one v) s trivial
        | printStatement v =>
          simp only [interp]
          rcases hp1 : interp fuel (.one v) s with ⟨r1, s1⟩
          have h1 : EnvOK s.env s1.env := by
            have := ihP (.one v) s trivial; rwa [hp1] at this
          simp only [hp1]
          rcases hu1 : unpack r1 with e | ⟨vt, vv⟩ <;> simp only [hu1]
          · exact h1
          · exact h1
        | ifStatement t c alt =>
          simp only [interp]
          rcases hp1 : interp fuel (.one t) s with ⟨r1, s1⟩
          have h1 : EnvOK s.env s1.env := by
            have := ihP (.one t) s trivial; rwa [hp1] at this
          simp only [hp1]
          rcases hu1 : unpack r1 with e | ⟨tt, tv⟩ <;> simp only [hu1]
          · exact h1
          · repeat' split
            all_goals first
              | exact h1
              | exact EnvOK_trans h1 (EnvOK_tail (ihP (.one _) (pushFrame s1) trivial))
        | whileStatement t b => exact ihP (.whileJob t b) s trivial
        | breakStatement => exact EnvOK_refl s.env
        | continueStatement => exact EnvOK_refl s.env
        | constDeclaration nm init =>
          rcases init with _ | e
          · exact EnvOK_refl s.env
          · simp only [interp]
            rcases hp1 : interp fuel (.one e) s with ⟨r1, s1⟩
            have h1 : EnvOK s.env s1.env := by
              have := ihP (.one e) s trivial; rwa [hp1] at this
            simp only [hp1]
            rcases hu1 : unpack r1 with er | ⟨vt, v⟩ <;> simp only [hu1]
            · exact h1
            · split
              · rcases hdef : envDefine s1.env nm ("const", vt, v) with er | env'
                  <;> simp only [hdef]
                · exact h1
                · exact EnvOK_trans h1 (envDefine_envOK hdef)
              · exact h1
        | varDeclaration nm ty init =>
          rcases init with _ | e
          · rcases ty with _ | a
            · exact EnvOK_refl s.env
            · simp only [interp]
              rcases hdef : envDefine s.env nm ("var", .str a.pyName, .rv (defaultTypeValue a))
                  with er | env' <;> simp only [hdef]
              · exact EnvOK_refl s.env
              · exact envDefine_envOK hdef
          · simp only [interp]
            rcases hp1 : interp fuel (.one e) s with ⟨r1, s1⟩
            have h1 : EnvOK s.env s1.env := by
              have := ihP (.one e) s trivial; rwa [hp1] at this
            simp only [hp1]
            rcases hu1 : unpack r1 with er | ⟨vt, v⟩ <;> simp only [hu1]
            · exact h1
            · rcases hdef : envDefine s1.env nm ("var", vt, v) with er | env'
                <;> simp only [hdef]
              · exact h1
              · exact EnvOK_trans h1 (envDefine_envOK hdef)
        | block l =>
          rcases l with _ | ⟨x, xs⟩
          · exact EnvOK_refl s.env
          · exact ihP (.seqB (x :: xs)) s trivial
        | functionDefinition f ps retTy body =>
          simp only [interp]
          rcases hdef : envDefine s.env f ("func", .tnode retTy, .fd ⟨f, ps, retTy, body⟩)
              with er | env' <;> simp only [hdef]
          · exact EnvOK_refl s.env
          · exact envDefine_envOK hdef
        | functionReturn e =>
          simp only [interp]
          split
          · exact EnvOK_refl s.env
          · rcases hp1 : interp fuel (.one e) s with ⟨r1, s1⟩
            have h1 : EnvOK s.env s1.env := by
              have := ihP (.one e) s trivial; rwa [hp1] at this
            simp only [hp1]
            rcases hu1 : unpack r1 with er | ⟨rt, rv⟩ <;> simp only [hu1]
            · exact h1
            · exact h1
        | functionApplication f args =>
          simp only [interp]
          rcases hlk : envLookup s.env f with e | ⟨k0, t0, sv⟩ <;> simp only [hlk]
          · exact EnvOK_refl s.env
          · rcases sv with v0 | fd
            · exact EnvOK_refl s.env
            · rcases hns : nodeStatements fd.body with _ | bodyStmts <;> simp only [hns]
              · exact EnvOK_refl s.env
              · rcases hpp : interp fuel (.fnParams fd.ps) (pushFrame s) with ⟨rp, sp⟩
                have hP : EnvOK ([] :: s.env) sp.env := by
                  have := ihP (.fnParams fd.ps) (pushFrame s) trivial
                  rwa [hpp] at this
                have hPdrop : EnvOK s.env sp.env.tail := EnvOK_tail hP
                simp only [hpp]
                rcases rp with rp0 | ep
                swap
                · exact hPdrop
                by_cases hlen : fd.ps.length = args.length
                · rw [if_pos hlen]
                  have hokArgs :
                      JobOK (.fnArgs f ((fd.ps.map (fun p => p.1)).zip args)) sp.env := by
                    intro pr hpr
                    rcases pr with ⟨pn, an⟩
                    obtain ⟨hin1, _⟩ := List.of_mem_zip hpr
                    obtain ⟨p, hpmem, hpeq⟩ := List.mem_map.mp hin1
                    obtain ⟨k', t', v', hg, hk'⟩ := ihQ fd.ps (pushFrame s) sp rp0 hpp p hpmem
                    rw [hpeq] at hg
                    exact ⟨k', t', v', hg, hk'⟩
                  rcases hpa : interp fuel
                      (.fnArgs f ((fd.ps.map (fun p => p.1)).zip args)) sp with ⟨ra, sa⟩
                  have hA : EnvOK sp.env sa.env := by
                    have := ihP (.fnArgs f ((fd.ps.map (fun p => p.1)).zip args)) sp hokArgs
                    rwa [hpa] at this
                  simp only [hpa]
                  rcases ra with ra0 | ea
                  swap
                  · exact EnvOK_tail (EnvOK_trans hP hA)
                  rcases hpb : interp fuel (.fnBody bodyStmts) sa with ⟨rb, sb⟩
                  have hB : EnvOK sa.env sb.env := by
                    have := ihP (.fnBody bodyStmts) sa trivial
                    rwa [hpb] at this
                  simp only [hpb]
                  exact EnvOK_tail (EnvOK_trans hP (EnvOK_trans hA hB))
                · rw [if_neg hlen]
                  exact hPdrop
      | seqB l =>
        rcases l with _ | ⟨stmt, rest⟩
        · exact EnvOK_refl s.env
        · simp only [interp]
          rcases hp1 : interp fuel (.one stmt) s with ⟨r1, s1⟩
          have h1 : EnvOK s.env s1.env := by
            have := ihP (.one stmt) s trivial; rwa [hp1] at this
          simp only [hp1]
          rcases r1 with r0 | e
          · exact EnvOK_trans h1 (ihP (.seqB rest) s1 trivial)
          · exact h1
      | fnParams ps =>
        rcases ps with _ | ⟨⟨pname, ty, init⟩, rest⟩
        · exact EnvOK_refl s.env
        · rcases init with _ | e
          · simp only [interp]
            rcases hdef : envDefine s.env pname
                ("var", .str ty.pyName, .rv (defaultTypeValue ty)) with er | env'
              <;> simp only [hdef]
            · exact EnvOK_refl s.env
            · exact EnvOK_trans (envDefine_envOK hdef)
                (ihP (.fnParams rest) ⟨env', s.out⟩ trivial)
          · simp only [interp]
            rcases hp1 : interp fuel (.one e) s with ⟨r1, s1⟩
            have h1 : EnvOK s.env s1.env := by
              have := ihP (.one e) s trivial; rwa [hp1] at this
            simp only [hp1]
            rcases hu1 : unpack r1 with er | ⟨vt, v⟩ <;> simp only [hu1]
            · exact h1
            · rcases hdef : envDefine s1.env pname ("var", vt, v) with er | env'
                <;> simp only [hdef]
              · exact h1
              · exact EnvOK_trans h1 (EnvOK_trans (envDefine_envOK hdef)
                  (ihP (.fnParams rest) ⟨env', s1.out⟩ trivial))
      | fnArgs f pairs =>
        rcases pairs with _ | ⟨⟨pname, argNode⟩, rest⟩
        · exact EnvOK_refl s.env
        · rcases s with ⟨env, out⟩
          rcases env with _ | ⟨frame, callerEnv⟩
          · exact EnvOK_refl _
          · simp only [interp]
            rcases hp1 : interp fuel (.one argNode) ⟨callerEnv, out⟩ with ⟨r1, t1⟩
            have h1 : EnvOK callerEnv t1.env := by
              have := ihP (.one argNode) ⟨callerEnv, out⟩ trivial
              rwa [hp1] at this
            have h1' : EnvOK (frame :: callerEnv) (frame :: t1.env) :=
              EnvOK_cons (frameOK_refl frame) h1
            simp only [hp1]
            rcases hu1 : unpack r1 with er | ⟨ts, vs⟩ <;> simp only [hu1]
            · exact h1'
            · obtain ⟨k0, t0, v0, hg, hk0⟩ := hok ⟨pname, argNode⟩ (List.mem_cons_self _ _)
              have hg' : frameGet frame pname = some (k0, t0, v0) := hg
              have hlk2 : envLookup (frame :: t1.env) pname = .ok (k0, t0, v0) :=
                envLookup_head _ hg'
              simp only [hlk2]
              split
              · exact h1'
              · rename_i v hveq
                have hassign : envAssign (frame :: t1.env) pname (k0, t0, v)
                    = .ok (frameSet frame pname (k0, t0, v) :: t1.env) :=
                  envAssign_head _ _ hg'
                simp only [hassign]
                have hframe : EnvOK (frame :: t1.env)
                    (frameSet frame pname (k0, t0, v) :: t1.env) :=
                  EnvOK_cons (frameOK_set (k0, t0, v) hg' hk0 hk0) (EnvOK_refl t1.env)
                have hokRest : JobOK (.fnArgs f rest)
                    (frameSet frame pname (k0, t0, v) :: t1.env) := by
                  intro pr hpr
                  by_cases hpe : pr.1 = pname
                  · rw [List.headD_cons, hpe, frameGet_frameSet_self]
                    exact ⟨k0, t0, v, rfl, hk0⟩
                  · obtain ⟨k', t', v', hg2, hk2⟩ :=
                      hok pr (List.mem_cons_of_mem _ hpr)
                    rw [List.headD_cons, frameGet_frameSet_ne _ _ _ _ hpe]
                    exact ⟨k', t', v', hg2, hk2⟩
                exact EnvOK_trans h1' (EnvOK_trans hframe
                  (ihP (.fnArgs f rest) ⟨frameSet frame pname (k0, t0, v) :: t1.env, t1.out⟩
                    hokRest))
      | fnBody l =>
        rcases l with _ | ⟨stmt, rest⟩
        · exact EnvOK_refl s.env
        · by_cases hfr : ∃ e, stmt = .functionReturn e
          · obtain ⟨e, rfl⟩ := hfr
            simp only [interp]
            split
            · exact EnvOK_refl s.env
            · rcases hp1 : interp fuel (.one e) s with ⟨r1, s1⟩
              have h1 : EnvOK s.env s1.env := by
                have := ihP (.one e) s trivial; rwa [hp1] at this
              simp only [hp1]
              rcases hu1 : unpack r1 with er | p <;> simp only [hu1]
              · exact h1
              · exact h1
          · rw [interp_fnBody_cons_eq fuel stmt rest s (fun e he => hfr ⟨e, he⟩)]
            rcases hp1 : interp fuel (.one stmt) s with ⟨r1, s1⟩
            have h1 : EnvOK s.env s1.env := by
              have := ihP (.one stmt) s trivial; rwa [hp1] at this
            simp only [hp1]
            have hrec : EnvOK s.env (interp fuel (.fnBody rest) s1).2.env :=
              EnvOK_trans h1 (ihP (.fnBody rest) s1 trivial)
            repeat' split
            all_goals first | exact h1 | exact hrec
      | whileJob t b =>
        simp only [interp]
        rcases hp1 : interp fuel (.one t) s with ⟨r1, s1⟩
        have h1 : EnvOK s.env s1.env := by
          have := ihP (.one t) s trivial; rwa [hp1] at this
        simp only [hp1]
        rcases hu1 : unpack r1 with er | ⟨tt, tv⟩ <;> simp only [hu1]
        · exact h1
        · rcases hp2 : interp fuel (.one b) s1 with ⟨r2, s2⟩
          have h2 : EnvOK s1.env s2.env := by
            have := ihP (.one b) s1 trivial; rwa [hp2] at this
          have h12 := EnvOK_trans h1 h2
          have hrec : EnvOK s.env (interp fuel (.whileJob t b) s2).2.env :=
            EnvOK_trans h12 (ihP (.whileJob t b) s2 trivial)
          simp only [hp2]
          repeat' split
          all_goals first | exact h1 | exact h12 | exact hrec
      | compoundLoop l =>
        rcases l with _ | ⟨stmt, rest⟩
        · exact EnvOK_refl s.env
        · rcases rest with _ | ⟨r2, rs⟩
          · exact ihP (.one stmt) s trivial
          · simp only [interp]
            rcases hp1 : interp fuel (.one stmt) s with ⟨r1, s1⟩
            have h1 : EnvOK s.env s1.env := by
              have := ihP (.one stmt) s trivial; rwa [hp1] at this
            simp only [hp1]
            rcases r1 with r0 | e
            · exact EnvOK_trans h1 (ihP (.compoundLoop (r2 :: rs)) s1 trivial)
            · exact h1
    · intro ps s s' r0 h p hp
      rcases ps with _ | ⟨⟨pname, ty, init⟩, rest⟩
      · exact absurd hp (List.not_mem_nil p)
      · rcases init with _ | e
        · simp only [interp] at h
          rcases hdef : envDefine s.env pname
              ("var", .str ty.pyName, .rv (defaultTypeValue ty)) with er | env'
          · simp only [hdef] at h; simp at h
          · simp only [hdef] at h
            obtain ⟨fhead, er2, henv, hgetnone, henv'⟩ := envDefine_ok_shape hdef
            have hEnvOK : EnvOK env' s'.env := by
              have := ihP (.fnParams rest) ⟨env', s.out⟩ trivial
              rwa [h] at this
            rcases List.mem_cons.mp hp with hpe | hpm
            · subst hpe
              subst henv'
              obtain ⟨f2, e2, hs', hfOK, _⟩ := EnvOK_cons_inv hEnvOK
              have hg0 : frameGet (fhead ++ [(pname, ("var", .str ty.pyName,
                  .rv (defaultTypeValue ty)))]) pname
                  = some ("var", .str ty.pyName, .rv (defaultTypeValue ty)) :=
                frameGet_append_self _ hgetnone
              obtain ⟨b', hb', _, hnc⟩ := hfOK pname _ hg0
              rcases b' with ⟨k', t', v'⟩
              refine ⟨k', t', v', ?_, hnc (by simp)⟩
              rw [hs', List.headD_cons]
              exact hb'
            · exact ihQ rest ⟨env', s.out⟩ s' r0 h p hpm
        · simp only [interp] at h
          rcases hp1 : interp fuel (.one e) s with ⟨r1, s1⟩
          simp only [hp1] at h
          rcases hu1 : unpack r1 with er | ⟨vt, v⟩
          · simp only [hu1] at h; simp at h
          · simp only [hu1] at h
            rcases hdef : envDefine s1.env pname ("var", vt, v) with er | env'
            · simp only [hdef] at h; simp at h
            · simp only [hdef] at h
              obtain ⟨fhead, er2, henv, hgetnone, henv'⟩ := envDefine_ok_shape hdef
              have hEnvOK : EnvOK env' s'.env := by
                have := ihP (.fnParams rest) ⟨env', s1.out⟩ trivial
                rwa [h] at this
              rcases List.mem_cons.mp hp with hpe | hpm
              · subst hpe
                subst henv'
                obtain ⟨f2, e2, hs', hfOK, _⟩ := EnvOK_cons_inv hEnvOK
                have hg0 : frameGet (fhead ++ [(pname, ("var", vt, v))]) pname
                    = some ("var", vt, v) := frameGet_append_self _ hgetnone
                obtain ⟨b', hb', _, hnc⟩ := hfOK pname _ hg0
                rcases b' with ⟨k', t', v'⟩
                refine ⟨k', t', v', ?_, hnc (by simp)⟩
                rw [hs', List.headD_cons]
                exact hb'
              · exact ihQ rest ⟨env', s1.out⟩ s' r0 h p hpm

/-- C8: evaluating `false && e` yields bool `false` without evaluating `e`,
and `true || e` yields bool `true` without evaluating `e` — for **every**
right operand `e` and every state: the result, the environment and the
collected output all equal those of evaluating the left operand alone. -/
theorem logical_op_short_circuits :
    (∀ (fuel : Nat) (e : Node) (s : St),
        interp (fuel + 2) (.one (.logicalOp "&&" (.boolean false) e)) s
          = (.ok (some (.str "bool", .rv (.vbool false))), s) ∧
        interp (fuel + 2) (.one (.logicalOp "&&" (.boolean false) e)) s
          = interp (fuel + 1) (.one (.boolean false)) s) ∧
    (∀ (fuel : Nat) (e : Node) (s : St),
        interp (fuel + 2) (.one (.logicalOp "||" (.boolean true) e)) s
          = (.ok (some (.str "bool", .rv (.vbool true))), s) ∧
        interp (fuel + 2) (.one (.logicalOp "||" (.boolean true) e)) s
          = interp (fuel + 1) (.one (.boolean true)) s) :=
  ⟨fun _ _ _ => ⟨rfl, rfl⟩, fun _ _ _ => ⟨rfl, rfl⟩⟩

/-- C7, counterexample to the claim as stated: `BinOp('/', 1, 0)` does not
produce a managed evaluation error — the unguarded Python `//` raises the
host exception `ZeroDivisionError` (a crash), not an interpreter
`RuntimeError` diagnostic. -/
theorem int_div_zero_crashes_unmanaged :
    (interp 2 (.one (.binOp "/" (.integer 1) (.integer 0))) st0).1
        = .exc .zeroDivisionError ∧
    isManagedDiag (interp 2 (.one (.binOp "/" (.integer 1) (.integer 0))) st0).1
        = false :=
  ⟨rfl, rfl⟩

/-- C7 (amended): on int operands, `/` floor-divides when the divisor is
nonzero; a zero divisor raises the **host** `ZeroDivisionError` (an
unmanaged crash — the source has no zero check), not a managed diagnostic. -/
theorem binop_int_div_semantics (fuel : Nat) (l r : Node) (s s1 s2 : St) (a b : Int)
    (hl : interp fuel (.one l) s = (.ok (some (.str "int", .rv (.vint a))), s1))
    (hr : interp fuel (.one r) s1 = (.ok (some (.str "int", .rv (.vint b))), s2)) :
    interp (fuel + 1) (.one (.binOp "/" l r)) s =
      if b = 0 then (.exc .zeroDivisionError, s2)
      else (.ok (some (.str "int", .rv (.vint (Int.fdiv a b)))), s2) := by
  simp only [interp, hl, hr]
  simp only [unpack, tyEq, tyIn, arith2, pyToInt, bind, Except.bind]
  norm_num
  split <;> rename_i heq <;> (repeat' split at heq) <;> simp_all

/-- Witness for `binop_int_div_semantics` at `7 / 2` (floor 3) from the
initial state. -/
theorem binop_int_div_semantics_witness :
    interp 2 (.one (.binOp "/" (.integer 7) (.integer 2))) st0
      = (.ok (some (.str "int", .rv (.vint 3))), st0) := by
  have h := binop_int_div_semantics 1 (.integer 7) (.integer 2) st0 st0 st0 7 2 rfl rfl
  simpa using h

/-- C2, counterexample to the claim as stated: with `x` a mutable int bound
to `1`, the assignment expression `x = 2` updates the binding to `2` but
yields `1` — the variable's **previous** value, not the newly assigned
value. -/
theorem assignment_yields_old_value_cex :
    interp 2 (.one (.assignment (.name "x") (.integer 2)))
        ⟨[[("x", ("var", .str "int", .rv (.vint 1)))]], []⟩
      = (.ok (some (.str "int", .rv (.vint 1))),
         ⟨[[("x", ("var", .str "int", .rv (.vint 2)))]], []⟩) := rfl

/-- C2 (amended): when `name` holds a mutable binding of the same type as the
evaluated right-hand side, the assignment stores the new value in the
environment but the assignment **expression yields the variable's previous
value** (the source returns `left_type, left_value` as looked up before the
write). -/
theorem assignment_yields_previous_value (fuel : Nat) (x : String) (e : Node)
    (s s1 : St) (t k : String) (vNew vOld : StoredVal)
    (he : interp fuel (.one e) s = (.ok (some (.str t, vNew)), s1))
    (hx : envLookup s1.env x = .ok (k, .str t, vOld))
    (hk : k ≠ "const") :
    ∃ env', envAssign s1.env x (k, .str t, vNew) = .ok env' ∧
      interp (fuel + 1) (.one (.assignment (.name x) e)) s
        = (.ok (some (.str t, vOld)), ⟨env', s1.out⟩) ∧
      envLookup env' x = .ok (k, .str t, vNew) := by
  obtain ⟨env', hassign⟩ := envAssign_ok_of_lookup_ok hx (k, .str t, vNew)
  refine ⟨env', hassign, ?_, envLookup_after_assign hassign⟩
  simp only [interp, he, unpack, dotValue, hx, hassign, tyEq]
  rw [if_neg (by simpa using hk)]
  simp

/-- Witness for `assignment_yields_previous_value`: `x = 5` with `x` bound to
`1` yields `1` and stores `5`. -/
theorem assignment_yields_previous_value_witness :
    interp 2 (.one (.assignment (.name "x") (.integer 5)))
        ⟨[[("x", ("var", .str "int", .rv (.vint 1)))]], []⟩
      = (.ok (some (.str "int", .rv (.vint 1))),
         ⟨[[("x", ("var", .str "int", .rv (.vint 5)))]], []⟩) := by
  obtain ⟨env', h1, h2, h3⟩ :=
    assignment_yields_previous_value 1 "x" (.integer 5)
      ⟨[[("x", ("var", .str "int", .rv (.vint 1)))]], []⟩
      ⟨[[("x", ("var", .str "int", .rv (.vint 1)))]], []⟩
      "int" "var" (.rv (.vint 5)) (.rv (.vint 1)) rfl rfl (by decide)
  have hv : env' = [[("x", ("var", .str "int", .rv (.vint 5)))]] := by
    have h4 : (Except.ok env' : Except PyExc Env)
        = .ok [[("x", ("var", .str "int", .rv (.vint 5)))]] := by
      rw [← h1]; rfl
    exact (Except.ok.injEq _ _).mp h4.symm |>.symm
  rw [hv] at h2
  exact h2

/-- C3: a call to a function with declared return type `int` whose body runs
to completion without a `return` statement **completes normally with Python
`None`** (the source's `FunctionApplication` case ends in `return None` under
the comment "Function had no Return statement / Is this acceptable?"); no
managed evaluation error is raised, contrary to the spec.  Any caller that
uses the result as a value then crashes with an unmanaged `TypeError`
(unpacking `None`), as the second conjunct shows. -/
theorem call_without_return_completes_normally :
    (interp 5 (.one (.functionApplication "f" []))
        ⟨[[("f", ("func", .tnode ⟨"int", 1⟩,
            .fd ⟨"f", [], ⟨"int", 1⟩,
                 .block [.varDeclaration "t" (some .int) (some (.integer 1))]⟩))]], []⟩
      = (.ok none,
         ⟨[[("f", ("func", .tnode ⟨"int", 1⟩,
            .fd ⟨"f", [], ⟨"int", 1⟩,
                 .block [.varDeclaration "t" (some .int) (some (.integer 1))]⟩))]], []⟩)) ∧
    isManagedDiag (interp 5 (.one (.functionApplication "f" []))
        ⟨[[("f", ("func", .tnode ⟨"int", 1⟩,
            .fd ⟨"f", [], ⟨"int", 1⟩,
                 .block [.varDeclaration "t" (some .int) (some (.integer 1))]⟩))]], []⟩).1
      = false ∧
    (interp 6 (.one (.binOp "+" (.functionApplication "f" []) (.integer 1)))
        ⟨[[("f", ("func", .tnode ⟨"int", 1⟩,
            .fd ⟨"f", [], ⟨"int", 1⟩,
                 .block [.varDeclaration "t" (some .int) (some (.integer 1))]⟩))]], []⟩).1
      = .exc .typeError :=
  ⟨rfl, rfl, rfl⟩

/-- C10: `Context.define` semantics.  (1) defining a name already present in
the innermost scope raises `RuntimeError` — with the function-specific
message when the existing binding is a `func` — and the environment is
unchanged (the interpreter-level conjunct (4) exhibits the untouched state);
(2) defining a name absent from the innermost scope succeeds even when outer
scopes bind it, appending to the innermost frame; (3) lookups then resolve to
the innermost binding, i.e. the new binding shadows any outer one. -/
theorem define_shadowing_semantics :
    (∀ (f : Frame) (rest : Env) (x : String) (b bOld : Binding),
        frameGet f x = some bOld →
        envDefine (f :: rest) x b =
          .error (.runtimeError
            (if bOld.1 = "func" then "Function " ++ x ++ "() already defined"
             else "Variable " ++ x ++ " already declared"))) ∧
    (∀ (f : Frame) (rest : Env) (x : String) (b : Binding),
        frameGet f x = none →
        envDefine (f :: rest) x b = .ok ((f ++ [(x, b)]) :: rest)) ∧
    (∀ (f : Frame) (rest : Env) (x : String) (b : Binding),
        frameGet f x = none →
        envLookup ((f ++ [(x, b)]) :: rest) x = .ok b) ∧
    (∀ (fuel : Nat) (x : String) (a : TAnn) (f : Frame) (rest : Env)
        (out : List String) (bOld : Binding),
        frameGet f x = some bOld → bOld.1 ≠ "func" →
        interp (fuel + 1) (.one (.varDeclaration x (some a) none)) ⟨f :: rest, out⟩
          = (.exc (.runtimeError ("Variable " ++ x ++ " already declared")),
             ⟨f :: rest, out⟩)) := by
  have hdef : ∀ (f : Frame) (rest : Env) (x : String) (b : Binding),
      envDefine (f :: rest) x b = match frameGet f x with
        | some (kind, _, _) =>
            if kind = "func" then
              .error (.runtimeError ("Function " ++ x ++ "() already defined"))
            else
              .error (.runtimeError ("Variable " ++ x ++ " already declared"))
        | none => .ok ((f ++ [(x, b)]) :: rest) := fun _ _ _ _ => rfl
  refine ⟨fun f rest x b bOld hb => ?_, fun f rest x b hb => ?_,
          fun f rest x b hb => ?_, fun fuel x a f rest out bOld hb hfn => ?_⟩
  · rw [hdef, hb]
    rcases bOld with ⟨k, t, v⟩
    by_cases hk : k = "func" <;> simp [hk]
  · rw [hdef, hb]
  · exact envLookup_head rest (frameGet_append_self b hb)
  · simp only [interp]
    rw [hdef, hb]
    rcases bOld with ⟨k, t, v⟩
    have hk : ¬ (k = "func") := by simpa using hfn
    simp [hk]

/-- Witness for `define_shadowing_semantics` at concrete frames: redefining
`x` in a scope that holds it fails; defining `y` succeeds and shadows an
outer `y`. -/
theorem define_shadowing_semantics_witness :
    envDefine [[("x", ("var", .str "int", .rv (.vint 1)))]] "x"
        ("var", .str "int", .rv (.vint 2))
      = .error (.runtimeError "Variable x already declared") ∧
    envDefine [[], [("y", ("var", .str "int", .rv (.vint 1)))]] "y"
        ("var", .str "bool", .rv (.vbool true))
      = .ok [[("y", ("var", .str "bool", .rv (.vbool true)))],
             [("y", ("var", .str "int", .rv (.vint 1)))]] ∧
    envLookup [[("y", ("var", .str "bool", .rv (.vbool true)))],
               [("y", ("var", .str "int", .rv (.vint 1)))]] "y"
      = .ok ("var", .str "bool", .rv (.vbool true)) ∧
    interp 1 (.one (.varDeclaration "x" (some .int) none))
        ⟨[[("x", ("var", .str "int", .rv (.vint 1)))]], []⟩
      = (.exc (.runtimeError "Variable x already declared"),
         ⟨[[("x", ("var", .str "int", .rv (.vint 1)))]], []⟩) := by
  refine ⟨?_, ?_, ?_, ?_⟩
  · have h := define_shadowing_semantics.1
      [("x", ("var", .str "int", .rv (.vint 1)))] [] "x"
      ("var", .str "int", .rv (.vint 2)) ("var", .str "int", .rv (.vint 1)) rfl
    simpa using h
  · have h := define_shadowing_semantics.2.1
      ([] : Frame) [[("y", ("var", .str "int", .rv (.vint 1)))]] "y"
      ("var", .str "bool", .rv (.vbool true)) rfl
    simpa using h
  · have h := define_shadowing_semantics.2.2.1 ([] : Frame)
      [[("y", ("var", .str "int", .rv (.vint 1)))]] "y"
      ("var", .str "bool", .rv (.vbool true)) rfl
    simpa using h
  · exact define_shadowing_semantics.2.2.2 0 "x" .int
      [("x", ("var", .str "int", .rv (.vint 1)))] [] []
      ("var", .str "int", .rv (.vint 1)) rfl (by decide)

/-- C9: `const` bindings are immutable.  (1) Across **any** single-node
evaluation with any fuel, every `const` binding, at any depth of the scope
chain, persists with its exact type and value.  (2) An assignment whose
target name holds a `const` binding raises the managed diagnostic
`RuntimeError('Constant values cannot be changed - name')` and leaves the
whole state — environment and output — unchanged.  (3) Evaluating the bare
name of a `const` binding yields exactly the stored `(type, value)` pair.
Together: every later evaluation of the name in the binding's scope yields
the initially stored value. -/
theorem const_bindings_are_immutable :
    (∀ (fuel : Nat) (nd : Node) (s : St) (i : Nat) (x : String)
        (t : StoredTy) (v : StoredVal),
        constAt s.env i x t v → constAt (interp fuel (.one nd) s).2.env i x t v) ∧
    (∀ (fuel : Nat) (x : String) (t : StoredTy) (v : StoredVal) (n : Int) (s : St),
        envLookup s.env x = .ok ("const", t, v) →
        interp (fuel + 2) (.one (.assignment (.name x) (.integer n))) s
          = (.exc (.runtimeError ("Constant values cannot be changed - " ++ x)), s)) ∧
    (∀ (fuel : Nat) (x : String) (t : StoredTy) (v : StoredVal) (s : St),
        envLookup s.env x = .ok ("const", t, v) →
        interp (fuel + 1) (.one (.name x)) s = (.ok (some (t, v)), s)) := by
  refine ⟨?_, ?_, ?_⟩
  · intro fuel nd s i x t v hc
    exact EnvOK_constAt ((interp_envOK_aux fuel).1 (.one nd) s trivial) hc
  · intro fuel x t v n s h
    simp only [interp, unpack, dotValue]
    rw [h]
    simp
  · intro fuel x t v s h
    simp only [interp]
    rw [h]

/-- Witness for `const_bindings_are_immutable`: with `x` bound `const int 7`,
printing `x` preserves the binding, `x = 9` raises the diagnostic with the
state untouched, and evaluating `x` yields `7`. -/
theorem const_bindings_are_immutable_witness :
    constAt ((interp 5 (.one (.printStatement (.name "x")))
        ⟨[[("x", ("const", .str "int", .rv (.vint 7)))]], []⟩).2.env)
        0 "x" (.str "int") (.rv (.vint 7)) ∧
    interp 3 (.one (.assignment (.name "x") (.integer 9)))
        ⟨[[("x", ("const", .str "int", .rv (.vint 7)))]], []⟩
      = (.exc (.runtimeError "Constant values cannot be changed - x"),
         ⟨[[("x", ("const", .str "int", .rv (.vint 7)))]], []⟩) ∧
    interp 1 (.one (.name "x"))
        ⟨[[("x", ("const", .str "int", .rv (.vint 7)))]], []⟩
      = (.ok (some (.str "int", .rv (.vint 7))),
         ⟨[[("x", ("const", .str "int", .rv (.vint 7)))]], []⟩) := by
  refine ⟨?_, ?_, ?_⟩
  · exact const_bindings_are_immutable.1 5 (.printStatement (.name "x"))
      ⟨[[("x", ("const", .str "int", .rv (.vint 7)))]], []⟩ 0 "x" _ _
      ⟨[("x", ("const", .str "int", .rv (.vint 7)))], rfl, rfl⟩
  · exact const_bindings_are_immutable.2.1 1 "x" (.str "int") (.rv (.vint 7)) 9
      ⟨[[("x", ("const", .str "int", .rv (.vint 7)))]], []⟩ rfl
  · exact const_bindings_are_immutable.2.2 0 "x" (.str "int") (.rv (.vint 7))
      ⟨[[("x", ("const", .str "int", .rv (.vint 7)))]], []⟩ rfl

/-- C1, counterexample to the claim as stated, in two parts.  (a) The fresh
frame's parent is the **caller's current environment**, not the function's
definition-site environment (`context = context.spawn_child_context()` spawns
from the caller's context): `g`, defined at the root with body `return y;`,
is called where the *caller* has a local `y = 5`; under the claim `y` would
be unresolvable, yet the call yields `5` — dynamic scoping.  (b) A `bool`
parameter is **not** bound to the value its argument evaluated to: the
source binds from `argument.value == 'true'`, a syntactic attribute of the
argument node, so `k(xb)` with the variable `xb` holding `true` yields
`false`, while `k(true)` with a literal yields `true`. -/
theorem function_call_claim_cex :
    (interp 5 (.one (.functionApplication "g" []))
        ⟨[[("y", ("var", .str "int", .rv (.vint 5)))],
          [("g", ("func", .tnode ⟨"int", 1⟩,
              .fd ⟨"g", [], ⟨"int", 1⟩, .block [.functionReturn (.name "y")]⟩))]], []⟩).1
      = .ok (some (.str "int", .rv (.vint 5))) ∧
    (interp 6 (.one (.functionApplication "k" [.name "xb"]))
        ⟨[[("xb", ("var", .str "bool", .rv (.vbool true))),
           ("k", ("func", .tnode ⟨"bool", 2⟩,
              .fd ⟨"k", [("b", .bool, none)], ⟨"bool", 2⟩,
                   .block [.functionReturn (.name "b")]⟩))]], []⟩).1
      = .ok (some (.str "bool", .rv (.vbool false))) ∧
    (interp 6 (.one (.functionApplication "k" [.boolean true]))
        ⟨[[("xb", ("var", .str "bool", .rv (.vbool true))),
           ("k", ("func", .tnode ⟨"bool", 2⟩,
              .fd ⟨"k", [("b", .bool, none)], ⟨"bool", 2⟩,
                   .block [.functionReturn (.name "b")]⟩))]], []⟩).1
      = .ok (some (.str "bool", .rv (.vbool true))) :=
  ⟨rfl, rfl, rfl⟩

set_option maxHeartbeats 3200000 in
/-- C1 (amended): the function-call pipeline as implemented.  (i) The callee
runs with the **caller's current chain** as its parent scope: for a nullary
function `f` whose body is `return y;`, the call yields whatever binding `y`
has in the caller's environment at the call site (dynamic scoping), not the
definition site's.  (ii) For a call `f(a1, a2)` to a function with two
non-defaulted `int` parameters: `a1` is evaluated first, in the caller's
environment; `a2` is evaluated second, in the state `a1` produced
(left-to-right); a fresh frame binding both parameters to the evaluated
values is pushed onto the chain `a2` left behind; the body statements run as
a function body in that state; and the call's result is the body's result
with the parameter frame popped. -/
theorem function_call_semantics :
    (∀ (fuel : Nat) (f y : String) (s : St) (k0 : String) (t0 : StoredTy)
        (fd : FuncDef) (kb : String) (tb : StoredTy) (vb : StoredVal),
        envLookup s.env f = .ok (k0, t0, .fd fd) →
        fd.ps = [] →
        fd.body = .block [.functionReturn (.name y)] →
        envLookup s.env y = .ok (kb, tb, vb) →
        interp (fuel + 3) (.one (.functionApplication f [])) s
          = (.ok (some (tb, vb)), s)) ∧
    (∀ (fuel : Nat) (f q1 q2 : String) (a1 a2 : Node) (s s2 s3 : St)
        (k0 : String) (t0 : StoredTy) (fd : FuncDef) (bodyStmts : List Node)
        (n1 n2 : Int),
        envLookup s.env f = .ok (k0, t0, .fd fd) →
        fd.ps = [(q1, .int, none), (q2, .int, none)] →
        fd.body = .block bodyStmts →
        q1 ≠ q2 →
        interp (fuel + 2) (.one a1) ⟨s.env, s.out⟩
          = (.ok (some (.str "int", .rv (.vint n1))), s2) →
        interp (fuel + 1) (.one a2) ⟨s2.env, s2.out⟩
          = (.ok (some (.str "int", .rv (.vint n2))), s3) →
        interp (fuel + 4) (.one (.functionApplication f [a1, a2])) s
          = ((interp (fuel + 3) (.fnBody bodyStmts)
                ⟨[(q1, ("var", .str "int", .rv (.vint n1))),
                  (q2, ("var", .str "int", .rv (.vint n2)))] :: s3.env, s3.out⟩).1,
             dropFrame (interp (fuel + 3) (.fnBody bodyStmts)
                ⟨[(q1, ("var", .str "int", .rv (.vint n1))),
                  (q2, ("var", .str "int", .rv (.vint n2)))] :: s3.env, s3.out⟩).2)) := by
  constructor
  · intro fuel f y s k0 t0 fd kb tb vb hf hps hbody hy
    obtain ⟨fn, ps, rt, bd⟩ := fd
    simp only at hps hbody
    subst hps; subst hbody
    have hgy : frameGet ([] : Frame) y = none := rfl
    have hpp : interp (fuel + 2) (.fnParams []) (⟨[] :: s.env, s.out⟩ : St)
        = (.ok none, ⟨[] :: s.env, s.out⟩) := by
      rw [interp]
    have hpa : interp (fuel + 2) (.fnArgs f []) (⟨[] :: s.env, s.out⟩ : St)
        = (.ok none, ⟨[] :: s.env, s.out⟩) := by
      rw [interp]
    have hnm : interp (fuel + 1) (.one (.name y)) (⟨[] :: s.env, s.out⟩ : St)
        = (.ok (some (tb, vb)), ⟨[] :: s.env, s.out⟩) := by
      rw [interp]
      simp [envLookup, hgy, hy]
    have hpb : interp (fuel + 2) (.fnBody [.functionReturn (.name y)])
          (⟨[] :: s.env, s.out⟩ : St)
        = (.ok (some (tb, vb)), ⟨[] :: s.env, s.out⟩) := by
      rw [interp]
      simp [isExpr, hnm, unpack]
    rw [interp]
    simp [hf, nodeStatements, pushFrame, dropFrame, hpp, hpa, hpb]
  · intro fuel f q1 q2 a1 a2 s s2 s3 k0 t0 fd bodyStmts n1 n2 hf hps hbody hq h1 h2
    obtain ⟨fn, ps, rt, bd⟩ := fd
    simp only at hps hbody
    subst hps; subst hbody
    have hq2 : ¬ (q2 = q1) := fun h => hq h.symm
    have hgB : frameGet [(q1, ("var", .str "int", .rv (.vint 0)))] q2 = none := by
      simp [frameGet, List.find?, hq]
    have hd1 : envDefine ([] :: s.env) q1 ("var", .str "int", .rv (.vint 0))
        = .ok ([(q1, ("var", .str "int", .rv (.vint 0)))] :: s.env) := rfl
    have hd2 : envDefine ([(q1, ("var", .str "int", .rv (.vint 0)))] :: s.env) q2
          ("var", .str "int", .rv (.vint 0))
        = .ok ([(q1, ("var", .str "int", .rv (.vint 0))),
                (q2, ("var", .str "int", .rv (.vint 0)))] :: s.env) := by
      rw [envDefine_cons_eq, hgB]
      rfl
    have hpp : interp (fuel + 3)
          (.fnParams [(q1, .int, none), (q2, .int, none)]) ⟨[] :: s.env, s.out⟩
        = (.ok none, ⟨[(q1, ("var", .str "int", .rv (.vint 0))),
                       (q2, ("var", .str "int", .rv (.vint 0)))] :: s.env, s.out⟩) := by
      rw [interp]
      simp only [TAnn.pyName, defaultTypeValue, hd1]
      rw [interp]
      simp only [TAnn.pyName, defaultTypeValue, hd2]
      rw [interp]
    have hga1 : frameGet [(q1, ("var", .str "int", .rv (.vint 0))),
                          (q2, ("var", .str "int", .rv (.vint 0)))] q1
        = some ("var", .str "int", .rv (.vint 0)) := by
      simp [frameGet, List.find?]
    have hlk1 : envLookup ([(q1, ("var", .str "int", .rv (.vint 0))),
                            (q2, ("var", .str "int", .rv (.vint 0)))] :: s2.env) q1
        = .ok ("var", .str "int", .rv (.vint 0)) := by
      simp [envLookup, hga1]
    have hset1 : frameSet [(q1, ("var", .str "int", .rv (.vint 0))),
                           (q2, ("var", .str "int", .rv (.vint 0)))] q1
          ("var", .str "int", .rv (.vint n1))
        = [(q1, ("var", .str "int", .rv (.vint n1))),
           (q2, ("var", .str "int", .rv (.vint 0)))] := by
      simp [frameSet, List.find?, hq2]
    have hassign1 : envAssign ([(q1, ("var", .str "int", .rv (.vint 0))),
                                (q2, ("var", .str "int", .rv (.vint 0)))] :: s2.env) q1
          ("var", .str "int", .rv (.vint n1))
        = .ok ([(q1, ("var", .str "int", .rv (.vint n1))),
                (q2, ("var", .str "int", .rv (.vint 0)))] :: s2.env) := by
      rw [envAssign_head s2.env _ hga1, hset1]
    have hga2 : frameGet [(q1, ("var", .str "int", .rv (.vint n1))),
                          (q2, ("var", .str "int", .rv (.vint 0)))] q2
        = some ("var", .str "int", .rv (.vint 0)) := by
      simp [frameGet, List.find?, hq]
    have hlk2 : envLookup ([(q1, ("var", .str "int", .rv (.vint n1))),
                            (q2, ("var", .str "int", .rv (.vint 0)))] :: s3.env) q2
        = .ok ("var", .str "int", .rv (.vint 0)) := by
      simp [envLookup, hga2]
    have hset2 : frameSet [(q1, ("var", .str "int", .rv (.vint n1))),
                           (q2, ("var", .str "int", .rv (.vint 0)))] q2
          ("var", .str "int", .rv (.vint n2))
        = [(q1, ("var", .str "int", .rv (.vint n1))),
           (q2, ("var", .str "int", .rv (.vint n2)))] := by
      simp [frameSet, List.find?, hq, hq2]
    have hassign2 : envAssign ([(q1, ("var", .str "int", .rv (.vint n1))),
                                (q2, ("var", .str "int", .rv (.vint 0)))] :: s3.env) q2
          ("var", .str "int", .rv (.vint n2))
        = .ok ([(q1, ("var", .str "int", .rv (.vint n1))),
                (q2, ("var", .str "int", .rv (.vint n2)))] :: s3.env) := by
      rw [envAssign_head s3.env _ hga2, hset2]
    have hpa : interp (fuel + 3) (.fnArgs f [(q1, a1), (q2, a2)])
          ⟨[(q1, ("var", .str "int", .rv (.vint 0))),
            (q2, ("var", .str "int", .rv (.vint 0)))] :: s.env, s.out⟩
        = (.ok none, ⟨[(q1, ("var", .str "int", .rv (.vint n1))),
                       (q2, ("var", .str "int", .rv (.vint n2)))] :: s3.env, s3.out⟩) := by
      rw [interp]
      simp [h1, unpack, hlk1, hassign1, tyEq, pyToInt, Except.map]
      rw [interp]
      simp [h2, unpack, hlk2, hassign2, tyEq, pyToInt, Except.map]
      rw [interp]
    rw [interp]
    simp [hf, nodeStatements, pushFrame, dropFrame, hpp, hpa]

/-- Witness for `function_call_semantics`: (i) `g()` with body `return y;`
reads the caller's local `y = 5`; (ii) `add(x, 3)` with `x = 2` evaluates
both arguments in the caller's state, binds `p := 2`, `q := 3` in the fresh
frame, runs the body there and yields `5` with the frame dropped. -/
theorem function_call_semantics_witness :
    interp 5 (.one (.functionApplication "g" []))
        ⟨[[("y", ("var", .str "int", .rv (.vint 5)))],
          [("g", ("func", .tnode ⟨"int", 1⟩,
              .fd ⟨"g", [], ⟨"int", 1⟩, .block [.functionReturn (.name "y")]⟩))]], []⟩
      = (.ok (some (.str "int", .rv (.vint 5))),
         ⟨[[("y", ("var", .str "int", .rv (.vint 5)))],
           [("g", ("func", .tnode ⟨"int", 1⟩,
               .fd ⟨"g", [], ⟨"int", 1⟩, .block [.functionReturn (.name "y")]⟩))]], []⟩) ∧
    interp 8 (.one (.functionApplication "add" [.name "x", .integer 3]))
        ⟨[[("x", ("var", .str "int", .rv (.vint 2)))],
          [("add", ("func", .tnode ⟨"int", 3⟩,
              .fd ⟨"add", [("p", .int, none), ("q", .int, none)], ⟨"int", 3⟩,
                   .block [.functionReturn
                     (.binOp "+" (.name "p") (.name "q"))]⟩))]], []⟩
      = (.ok (some (.str "int", .rv (.vint 5))),
         ⟨[[("x", ("var", .str "int", .rv (.vint 2)))],
           [("add", ("func", .tnode ⟨"int", 3⟩,
               .fd ⟨"add", [("p", .int, none), ("q", .int, none)], ⟨"int", 3⟩,
                    .block [.functionReturn
                      (.binOp "+" (.name "p") (.name "q"))]⟩))]], []⟩) := by
  constructor
  · exact function_call_semantics.1 2 "g" "y"
      ⟨[[("y", ("var", .str "int", .rv (.vint 5)))],
        [("g", ("func", .tnode ⟨"int", 1⟩,
            .fd ⟨"g", [], ⟨"int", 1⟩, .block [.functionReturn (.name "y")]⟩))]], []⟩
      "func" (.tnode ⟨"int", 1⟩)
      ⟨"g", [], ⟨"int", 1⟩, .block [.functionReturn (.name "y")]⟩
      "var" (.str "int") (.rv (.vint 5)) rfl rfl rfl rfl
  · exact (function_call_semantics.2 4 "add" "p" "q" (.name "x") (.integer 3)
      ⟨[[("x", ("var", .str "int", .rv (.vint 2)))],
        [("add", ("func", .tnode ⟨"int", 3⟩,
            .fd ⟨"add", [("p", .int, none), ("q", .int, none)], ⟨"int", 3⟩,
                 .block [.functionReturn (.binOp "+" (.name "p") (.name "q"))]⟩))]], []⟩
      ⟨[[("x", ("var", .str "int", .rv (.vint 2)))],
        [("add", ("func", .tnode ⟨"int", 3⟩,
            .fd ⟨"add", [("p", .int, none), ("q", .int, none)], ⟨"int", 3⟩,
                 .block [.functionReturn (.binOp "+" (.name "p") (.name "q"))]⟩))]], []⟩
      ⟨[[("x", ("var", .str "int", .rv (.vint 2)))],
        [("add", ("func", .tnode ⟨"int", 3⟩,
            .fd ⟨"add", [("p", .int, none), ("q", .int, none)], ⟨"int", 3⟩,
                 .block [.functionReturn (.binOp "+" (.name "p") (.name "q"))]⟩))]], []⟩
      "func" (.tnode ⟨"int", 3⟩)
      ⟨"add", [("p", .int, none), ("q", .int, none)], ⟨"int", 3⟩,
           .block [.functionReturn (.binOp "+" (.name "p") (.name "q"))]⟩
      [.functionReturn (.binOp "+" (.name "p") (.name "q"))] 2 3
      rfl rfl rfl (by decide) rfl rfl).trans rfl

end WabbitInterp
